import Mathlib

/-!
# Nautilus shell (`nautilus.c`): tokenizer, wildcards, redirections, pipelines

A shallow embedding of `nautilus.c`.

* A C string (`char *`) is the list of its characters before the terminating
  NUL, so `*s != '\0'` reads `s ≠ []`, `s += n` reads `s.drop n` and
  `strndup(s, n)` reads `s.take n`.
* A NULL-terminated `char **` is the list of its words before the NULL; a
  pointer that may be NULL is an `Option`.
* What a function prints on `stderr` is returned next to its result, as the
  list of the lines written.
* The functions that touch the file system or start processes take the system
  as a `World` and return the list of the `Event`s they cause.
* A loop that need not end is given `fuel`, one unit per pass.
-/

namespace Nautilus

/-- A C string: the characters before the terminating NUL. -/
abbrev CString := List Char

/-- A NULL-terminated array of C strings: the words before the NULL. -/
abbrev Words := List CString

/-! ## Constants of `nautilus.c` -/

/-- Constant `#define WORD_SEPARATORS " \t\r\n"` -/
def WORD_SEPARATORS : CString := [' ', '\t', '\r', '\n']

/-- Constant `#define SPECIAL_CHARS "!><|"` -/
def SPECIAL_CHARS : CString := ['!', '>', '<', '|']

/-- Flag `#define NOT_REDIR 0` -/
def NOT_REDIR : Nat := 0

/-- Flag `#define REDIR_OUTPUT 1` -/
def REDIR_OUTPUT : Nat := 1

/-- Flag `#define REDIR_APPEND 2` -/
def REDIR_APPEND : Nat := 2

/-- Flag `#define REDIR_INPUT 4` -/
def REDIR_INPUT : Nat := 4

/-! ## libc helpers used by `tokenize` -/

/-- Function `strspn(s, accept)`: length of the longest prefix of `s` made only of
characters of `accept`. -/
def strspn : CString → CString → Nat
  | [], _ => 0
  | c :: s, accept => if c ∈ accept then strspn s accept + 1 else 0

/-- Function `strcspn(s, reject)`: length of the longest prefix of `s` holding no
character of `reject`. -/
def strcspn : CString → CString → Nat
  | [], _ => 0
  | c :: s, reject => if c ∈ reject then 0 else strcspn s reject + 1

/-! ## `tokenize` -/

/-- The `while (*s != '\0')` loop of `tokenize`: the state is the rest of the
input `s` and the tokens stored so far.  Each pass of the loop uses one unit of
`fuel`; `none` means the fuel ran out before the loop ended. -/
def tokenizeLoop (separators special_chars : CString) :
    Nat → CString → Words → Option Words
  | 0, _, _ => none
  | fuel + 1, s, tokens =>
    if s = [] then some tokens
    else
      -- s += strspn(s, separators);
      let s := s.drop (strspn s separators)
      -- if (*s == '\0') break;
      if s = [] then some tokens
      else
        let token_length := strcspn s separators
        let token_length_without_special_chars := strcspn s special_chars
        let token_length_without_special_chars :=
          if token_length_without_special_chars = 0 then 1
          else token_length_without_special_chars
        let token_length :=
          if token_length_without_special_chars < token_length
          then token_length_without_special_chars else token_length
        -- char *token = strndup(s, token_length); s += token_length;
        let token := s.take token_length
        tokenizeLoop separators special_chars fuel (s.drop token_length)
          (tokens ++ [token])

/-- Function `tokenize(s, separators, special_chars)`.  The loop is given
`strlen(s) + 1` passes, the size of the token array the C code allocates. -/
def tokenize (s separators special_chars : CString) : Option Words :=
  tokenizeLoop separators special_chars (s.length + 1) s []

/-- The token length one pass of the loop of `tokenize` computes at `s`: the
shorter of the run without separators and the run without special characters,
the latter counted as 1 when it is 0. -/
def tokenLength (separators special_chars s : CString) : Nat :=
  let token_length := strcspn s separators
  let token_length_without_special_chars := strcspn s special_chars
  let token_length_without_special_chars :=
    if token_length_without_special_chars = 0 then 1
    else token_length_without_special_chars
  if token_length_without_special_chars < token_length
  then token_length_without_special_chars else token_length

/-! ## The tokenizer as the specification words it

"Surround every operator character with a space, then split on the separator
characters and drop the empty pieces." -/

/-- Specification side: every operator character of the line gets a space on
both sides. -/
def padOperators (line : CString) : CString :=
  line.flatMap (fun c => if c ∈ SPECIAL_CHARS then [' ', c, ' '] else [c])

/-- Specification side: split at every separator character and drop the empty
pieces. -/
def splitDropEmpty (line : CString) : Words :=
  (line.splitOnP (fun c => decide (c ∈ WORD_SEPARATORS))).filter (fun w => decide (w ≠ []))

/-- The pieces of the padded line before the empty ones are dropped. -/
def splitPadded (line : CString) : List CString :=
  (padOperators line).splitOnP (fun c => decide (c ∈ WORD_SEPARATORS))

/-- Specification side of `tokenize(line, WORD_SEPARATORS, SPECIAL_CHARS)`. -/
def tokenizeSpec (line : CString) : Words :=
  splitDropEmpty (padOperators line)

/-! ## Redirection classifier -/

/-- Function `getWordCount(words)`: the number of words before the NULL. -/
def getWordCount (words : Words) : Nat := words.length

/-- Function `isRedirection(argument)`: `strcmp(argument, "<") == 0 ||
strcmp(argument, ">") == 0`. -/
def isRedirection (argument : CString) : Bool :=
  if argument = ['<'] ∨ argument = ['>'] then true else false

/-- The scanning loops of `checkRedirValidity`,
`for (int i = lo; i < hi; i++) if (isRedirection(words[i]) == true) ...`:
true when the body's early return is taken. -/
def redirectionInRange (words : Words) (lo hi : Nat) : Bool :=
  (List.range' lo (hi - lo)).any (fun i => isRedirection (words.getD i []))

/-- What every failing branch of `checkRedirValidity` does:
`fprintf(stderr, "invalid input redirection\n"); return false;`. -/
def invalidRedirection : Bool × List String :=
  (false, ["invalid input redirection"])

/-- Function `checkRedirValidity(words, flags)`: the result and the lines
written to `stderr`.  Its only caller passes at least three words, so
`argc - 1`, `argc - 2` and `argc - 3` are indices into `words`. -/
def checkRedirValidity (words : Words) (flags : Nat) : Bool × List String :=
  let redirectTypes := REDIR_APPEND ||| REDIR_INPUT ||| REDIR_OUTPUT
  let argc := getWordCount words
  let selector := flags &&& redirectTypes
  if selector = 0 then invalidRedirection
  else if selector = REDIR_INPUT then
    if redirectionInRange words 1 argc then invalidRedirection else (true, [])
  else if selector = REDIR_OUTPUT then
    if isRedirection (words.getD (argc - 1) []) then invalidRedirection
    else if redirectionInRange words 0 (argc - 2) then invalidRedirection
    else (true, [])
  else if selector = REDIR_APPEND then
    if isRedirection (words.getD (argc - 1) []) then invalidRedirection
    else if redirectionInRange words 1 (argc - 3) then invalidRedirection
    else (true, [])
  else if selector = (REDIR_INPUT ||| REDIR_OUTPUT) then
    if argc < 5 then invalidRedirection
    else if isRedirection (words.getD (argc - 1) []) then invalidRedirection
    else if redirectionInRange words 1 (argc - 2) then invalidRedirection
    else (true, [])
  else if selector = (REDIR_INPUT ||| REDIR_APPEND) then
    if argc < 6 then invalidRedirection
    else if isRedirection (words.getD (argc - 1) []) then invalidRedirection
    else if redirectionInRange words 1 (argc - 3) then invalidRedirection
    else (true, [])
  else (true, [])

/-- Function `getRedirectionType(words)` for a non-empty `words` (the C code
asserts `words[0] != NULL`): the flags returned and the lines written to
`stderr`. -/
def getRedirectionType (words : Words) : Nat × List String :=
  let argc := getWordCount words
  let flags := 0
  if argc ≤ 2 then (NOT_REDIR, [])
  else
    let flags := if words.getD 0 [] = ['<'] then flags ||| REDIR_INPUT else flags
    let flags :=
      if words.getD (argc - 3) [] ≠ ['>'] ∧ words.getD (argc - 2) [] = ['>']
      then flags ||| REDIR_OUTPUT else flags
    let flags :=
      if words.getD (argc - 3) [] = ['>'] ∧ words.getD (argc - 2) [] = ['>']
      then flags ||| REDIR_APPEND else flags
    let isValid := checkRedirValidity words flags
    if isValid.1 = true then (flags, isValid.2) else (0, isValid.2)

/-- The flags `getRedirectionType` has set when it calls
`checkRedirValidity`, for a sequence of at least three words. -/
def detectedFlags (words : Words) : Nat :=
  let argc := getWordCount words
  let flags := 0
  let flags := if words.getD 0 [] = ['<'] then flags ||| REDIR_INPUT else flags
  let flags :=
    if words.getD (argc - 3) [] ≠ ['>'] ∧ words.getD (argc - 2) [] = ['>']
    then flags ||| REDIR_OUTPUT else flags
  if words.getD (argc - 3) [] = ['>'] ∧ words.getD (argc - 2) [] = ['>']
  then flags ||| REDIR_APPEND else flags

/-! ## Slices of a word array -/

/-- The search loops of `leftPartition` and `rightPartition`,
`for (int i = 0; i < argc; i++) if (strcmp(words[i], separator) == 0) ...`,
started at index `i` with `found` the index recorded so far: the loop records
the index and, unless `stopLastOccurrence` is set, breaks. -/
def separatorSearch (separator : CString) (stopLastOccurrence : Bool) :
    Words → Nat → Option Nat → Option Nat
  | [], _, found => found
  | w :: ws, i, found =>
    if w = separator then
      if stopLastOccurrence = false then some i
      else separatorSearch separator stopLastOccurrence ws (i + 1) (some i)
    else separatorSearch separator stopLastOccurrence ws (i + 1) found

/-- Function `leftPartition(words, separator)`: the words before the first
occurrence of `separator`, or `words` itself when there is none. -/
def leftPartition (words : Words) (separator : CString) : Words :=
  match separatorSearch separator false words 0 none with
  | none => words
  | some separatorIndex => words.take separatorIndex

/-- Function `rightPartition(words, separator, stopLastOccurrence)`: the words
after the first (after the last, when `stopLastOccurrence` is set) occurrence of
`separator`, or `words` itself when there is none. -/
def rightPartition (words : Words) (separator : CString) (stopLastOccurrence : Bool) :
    Words :=
  match separatorSearch separator stopLastOccurrence words 0 none with
  | none => words
  | some separatorIndex => words.drop (separatorIndex + 1)

/-! ## Wildcard expansion -/

/-- Function `hasWildcard(line)`: some character is one of `*`, `?`, `[`, `]`,
`~`. -/
def hasWildcard (line : CString) : Bool :=
  line.any (fun c => c = '*' || c = '?' || c = '[' || c = ']' || c = '~')

/-- Function `removeFromWords(words, target)`, for `target` an index of
`words`: the array without the word at `target`. -/
def removeFromWords (words : Words) (target : Nat) : Words :=
  words.take target ++ words.drop (target + 1)

/-- Function `injectIntoWords(words, newWord, target)`: the array with `newWord`
put in at index `target`; when `target` is beyond the NULL the loop never
reaches it and the array is copied as it is. -/
def injectIntoWords (words : Words) (newWord : CString) (target : Nat) : Words :=
  if target ≤ words.length then words.take target ++ newWord :: words.drop target
  else words

/-- The loop `for (int n = 0; n < matches.gl_pathc; n++)` of `expandWildcards`
from pass `n` on, `gl_pathv` holding the matches left: the first pass removes
`words[i]`, every pass puts one match in at `i + n`. -/
def injectMatches (i : Nat) : Words → Words → Nat → Words
  | words, [], _ => words
  | words, m :: ms, n =>
    let words := if n = 0 then removeFromWords words i else words
    injectMatches i (injectIntoWords words m (i + n)) ms (n + 1)

/-- The loop `for (int i = 0; i < getWordCount(words); i++)` of
`expandWildcards` from index `i` on.  `glob pattern` is what
`glob(pattern, GLOB_NOCHECK | GLOB_TILDE, NULL, &matches)` finds: `some gl_pathv`
when it returns 0, `none` otherwise.  Each pass uses one unit of `fuel`; `none`
means the fuel ran out before the loop ended. -/
def expandWildcardsLoop (glob : CString → Option Words) : Nat → Words → Nat → Option Words
  | 0, _, _ => none
  | fuel + 1, words, i =>
    if i < getWordCount words then
      let words :=
        if hasWildcard (words.getD i []) then
          match glob (words.getD i []) with
          | some gl_pathv => injectMatches i words gl_pathv 0
          | none => words
        else words
      expandWildcardsLoop glob fuel words (i + 1)
    else some words

/-- Function `expandWildcards(words)`, its loop given `fuel` passes. -/
def expandWildcards (glob : CString → Option Words) (fuel : Nat) (words : Words) :
    Option Words :=
  expandWildcardsLoop glob fuel words 0

/-! ## The system the shell runs in, and what the shell does to it

The functions below that touch the file system or start a process take the
system as a `World` and return the list of the `Event`s they cause, in order.
Opening an output file, `posix_spawn` and `waitpid` are taken to succeed. -/

/-- What the shell can observe of the system it runs in. -/
structure World where
  /-- What `glob(pattern, GLOB_NOCHECK | GLOB_TILDE, NULL, &matches)` finds:
  `some gl_pathv` when it returns 0, `none` otherwise. -/
  glob : CString → Option Words
  /-- What `findInPath(path, target)` returns for the shell's search path: the
  absolute path of the first directory entry named `target`, or `none` for
  NULL. -/
  findInPath : CString → Option CString
  /-- What `is_executable(pathname)` returns. -/
  is_executable : CString → Bool
  /-- What `fileExists(pathName)` returns. -/
  fileExists : CString → Bool
  /-- What `isDirectory(pathName)` returns. -/
  isDirectory : CString → Bool
  /-- What `fopen(fileName, "r")` followed by `fgets` up to the end of the file
  reads: `none` when `fopen` returns NULL. -/
  readLines : CString → Option (List CString)
  /-- What the program at a path does when it is spawned with an argument
  vector and fed the given lines on its standard input (`none` when its
  standard input is not redirected): the lines it writes on its standard
  output, and its exit status. -/
  run : CString → Words → Option (List CString) → List CString × Nat

/-- What the shell does to the system.  Fixed messages are recorded without
their final newline. -/
inductive Event where
  /-- A line written with `fprintf(stderr, ...)`. -/
  | stderr (line : String)
  /-- A line written on the shell's standard output. -/
  | stdout (line : String)
  /-- A successful `fopen(fileName, mode)`. -/
  | fopen (fileName : CString) (mode : String)
  /-- The lines written with `fputs` to the open file `fileName`. -/
  | fputs (fileName : CString) (lines : List CString)
  /-- A call `posix_spawn(&pid, programPath, &actions, NULL, argv, environment)`
  of a program that is fed `input` (`none`: standard input not redirected). -/
  | spawn (programPath : CString) (argv : Words) (input : Option (List CString))
  /-- A NULL pointer is dereferenced or an assertion fails: the shell dies. -/
  | crash
  /-- The shell never gets past this point. -/
  | hang
  deriving DecidableEq

/-- Function `isBuiltin(argument)`: the result and the lines written to
`stderr`. -/
def isBuiltin (argument : CString) : Bool × List String :=
  if argument = "history".toList ∨ argument = "cd".toList ∨ argument = "pwd".toList ∨
      argument = "!".toList then
    (true, [String.mk argument ++ ": I/O redirection not permitted for builtin commands"])
  else (false, [])

/-- Function `getPathToProgram(program, path)`: `program` itself when it holds
a `/` (`strrchr(programPath, '/') != NULL`), what `findInPath` returns
otherwise. -/
def getPathToProgram (W : World) (program : CString) : Option CString :=
  if '/' ∈ program then some program else W.findInPath program

/-- Function `executionError(words, programPath)`. -/
def executionError (W : World) (words : Words) (programPath : Option CString) :
    List Event :=
  match programPath with
  | some programPath =>
    if W.fileExists programPath = false then
      [Event.stderr (String.mk programPath ++ ": command not found")]
    else [Event.stderr (String.mk programPath ++ ": Permission denied")]
  | none => [Event.stderr (String.mk (words.headD []) ++ ": command not found")]

/-- The line `printf("%s exit status = %d\n", programPath, exit_status)`. -/
def exitStatusLine (programPath : CString) (exit_status : Nat) : Event :=
  Event.stdout (String.mk programPath ++ " exit status = " ++ toString exit_status)

/-- The test `programPath != NULL && is_executable(programPath)`. -/
def canExecute (W : World) (programPath : Option CString) : Bool :=
  match programPath with
  | some programPath => W.is_executable programPath
  | none => false

/-- Function `executeRedirInput(words, path, environment)`. -/
def executeRedirInput (W : World) (words : Words) : List Event :=
  match words[1]? with
  | none => [Event.crash]
  | some fileName =>
    let rightWords := rightPartition words fileName true
    match rightWords.head? with
    | none => [Event.crash]
    | some programName =>
      let programPath := getPathToProgram W programName
      if (isBuiltin programName).1 = true then (isBuiltin programName).2.map Event.stderr
      else if canExecute W programPath = true then
        match W.readLines fileName with
        | none => [Event.stderr (String.mk fileName ++ ": No such file or directory")]
        | some lines =>
          let result := W.run (programPath.getD []) rightWords (some lines)
          [Event.fopen fileName "r",
            Event.spawn (programPath.getD []) rightWords (some lines)] ++
          result.1.map (fun l => Event.stdout (String.mk l)) ++
          [exitStatusLine (programPath.getD []) result.2]
      else executionError W rightWords programPath

/-- The common body of `executeRedirOutput` (`mode` is `"w"`) and
`executeRedirAppend` (`mode` is `"a"`), which differ in the mode of
`fopen(fileName, mode)` only. -/
def executeRedirOutputMode (W : World) (mode : String) (words : Words) : List Event :=
  let argc := getWordCount words
  match words[argc - 1]? with
  | none => [Event.crash]
  | some fileName =>
    let leftWords := leftPartition words ['>']
    match leftWords.head? with
    | none => [Event.crash]
    | some programName =>
      let programPath := getPathToProgram W programName
      if (isBuiltin programName).1 = true then (isBuiltin programName).2.map Event.stderr
      else if canExecute W programPath = true then
        if W.isDirectory fileName = true then
          [Event.stderr (String.mk fileName ++ ": Is a directory")]
        else
          let result := W.run (programPath.getD []) leftWords none
          [Event.spawn (programPath.getD []) leftWords none,
            Event.fopen fileName mode, Event.fputs fileName result.1,
            exitStatusLine (programPath.getD []) result.2]
      else executionError W leftWords programPath

/-- Function `executeRedirOutput(words, path, environment)`. -/
def executeRedirOutput (W : World) (words : Words) : List Event :=
  executeRedirOutputMode W "w" words

/-- Function `executeRedirAppend(words, path, environment)`. -/
def executeRedirAppend (W : World) (words : Words) : List Event :=
  executeRedirOutputMode W "a" words

/-- The common body of `executeRedirInputAndOutput` (`mode` is `"w"`) and
`executeRedirInputAndAppend` (`mode` is `"a"`), which differ in the mode of
`fopen(outputFileName, mode)` only. -/
def executeRedirInputAndOutputMode (W : World) (mode : String) (words : Words) :
    List Event :=
  let argc := getWordCount words
  match words[1]? with
  | none => [Event.crash]
  | some inputFileName =>
    match words[argc - 1]? with
    | none => [Event.crash]
    | some outputFileName =>
      let rightWords := rightPartition words inputFileName true
      let commandWords := leftPartition rightWords ['>']
      match commandWords.head? with
      | none => [Event.crash]
      | some programName =>
        let programPath := getPathToProgram W programName
        if (isBuiltin programName).1 = true then (isBuiltin programName).2.map Event.stderr
        else if canExecute W programPath = true then
          match W.readLines inputFileName with
          | none =>
            [Event.stderr (String.mk inputFileName ++ ": No such file or directory")]
          | some lines =>
            if W.isDirectory outputFileName = true then
              [Event.fopen inputFileName "r",
                Event.stderr (String.mk outputFileName ++ ": Is a directory")]
            else
              let result := W.run (programPath.getD []) commandWords (some lines)
              [Event.fopen inputFileName "r",
                Event.spawn (programPath.getD []) commandWords (some lines),
                Event.fopen outputFileName mode, Event.fputs outputFileName result.1,
                exitStatusLine (programPath.getD []) result.2]
        else executionError W commandWords programPath

/-- Function `executeRedirInputAndOutput(words, path, environment)`. -/
def executeRedirInputAndOutput (W : World) (words : Words) : List Event :=
  executeRedirInputAndOutputMode W "w" words

/-- Function `executeRedirInputAndAppend(words, path, environment)`. -/
def executeRedirInputAndAppend (W : World) (words : Words) : List Event :=
  executeRedirInputAndOutputMode W "a" words

/-- The five functions `executeRedirection` chooses from. -/
inductive RedirExecutor where
  | executeRedirInput
  | executeRedirOutput
  | executeRedirAppend
  | executeRedirInputAndOutput
  | executeRedirInputAndAppend
  deriving DecidableEq

/-- The function a `RedirExecutor` names. -/
def RedirExecutor.run (W : World) : RedirExecutor → Words → List Event
  | .executeRedirInput => Nautilus.executeRedirInput W
  | .executeRedirOutput => Nautilus.executeRedirOutput W
  | .executeRedirAppend => Nautilus.executeRedirAppend W
  | .executeRedirInputAndOutput => Nautilus.executeRedirInputAndOutput W
  | .executeRedirInputAndAppend => Nautilus.executeRedirInputAndAppend W

/-- Function `executeRedirection(words, path, environ)` up to its call of one of
the five executors: the events so far, and the executor chosen with the words
it is passed (`none` when no branch of the `if` chain is taken).  The loop of
`expandWildcards` is given `fuel` passes. -/
def executeRedirectionCall (W : World) (fuel : Nat) (words : Words) :
    List Event × Option (RedirExecutor × Words) :=
  let flags := getRedirectionType words
  let redirectTypes := REDIR_APPEND ||| REDIR_INPUT ||| REDIR_OUTPUT
  match expandWildcards W.glob fuel words with
  | none => (flags.2.map Event.stderr ++ [Event.hang], none)
  | some words =>
    (flags.2.map Event.stderr,
      if flags.1 &&& redirectTypes = REDIR_INPUT then
        some (RedirExecutor.executeRedirInput, words)
      else if flags.1 &&& redirectTypes = REDIR_OUTPUT then
        some (RedirExecutor.executeRedirOutput, words)
      else if flags.1 &&& redirectTypes = REDIR_APPEND then
        some (RedirExecutor.executeRedirAppend, words)
      else if flags.1 &&& redirectTypes = (REDIR_INPUT ||| REDIR_OUTPUT) then
        some (RedirExecutor.executeRedirInputAndOutput, words)
      else if flags.1 &&& redirectTypes = (REDIR_INPUT ||| REDIR_APPEND) then
        some (RedirExecutor.executeRedirInputAndAppend, words)
      else none)

/-- Function `executeRedirection(words, path, environ)`. -/
def executeRedirection (W : World) (fuel : Nat) (words : Words) : List Event :=
  let call := executeRedirectionCall W fuel words
  call.1 ++
    match call.2 with
    | none => []
    | some (executor, words) => executor.run W words

/-! ## Pipelines -/

/-- Function `isRedirectionCommand(words)`: some word is `<` or `>`. -/
def isRedirectionCommand (words : Words) : Bool :=
  words.any (fun w => decide (w = ['<'] ∨ w = ['>']))

/-- Function `isPipeCommand(words)`: some word is `|`. -/
def isPipeCommand (words : Words) : Bool :=
  words.any (fun w => decide (w = ['|']))

/-- Function `getNumberOfPipes(words)`: how many words are `|`. -/
def getNumberOfPipes (words : Words) : Nat :=
  words.countP (fun w => decide (w = ['|']))

/-- One of the two blocks "Executing left process" and "Executing right
process" of `handlePiping`, which differ in the names of their variables only:
the program of `process` is resolved and, when it can be executed, spawned and
fed `input`, and all its output is read.  The result is `Except.error` with the
events when the block returns from `handlePiping`, and otherwise the events,
the output lines read, the program path and the exit status. -/
def pipeStage (W : World) (process : Words) (input : List CString) :
    Except (List Event) (List Event × List CString × CString × Nat) :=
  let programName := process.headD []
  let programPath := getPathToProgram W programName
  if canExecute W programPath = true then
    let result := W.run (programPath.getD []) process (some input)
    Except.ok ([Event.spawn (programPath.getD []) process (some input)],
      result.1, programPath.getD [], result.2)
  else Except.error (executionError W process programPath)

/-- The terminating case of `handlePiping`: the output of the last stage goes
to the console or to the output file, then the exit status line is printed.
`fopen(NULL, ...)` is a crash. -/
def emitPipelineOutput (redirectOption : Nat) (outputFilename : Option CString)
    (rightProcessOutput : List CString) (rightProgramPath : CString)
    (exit_status : Nat) : List Event :=
  if redirectOption = 0 then
    rightProcessOutput.map (fun l => Event.stdout (String.mk l)) ++
      [exitStatusLine rightProgramPath exit_status]
  else if redirectOption &&& REDIR_OUTPUT = REDIR_OUTPUT then
    match outputFilename with
    | none => [Event.crash]
    | some outputFilename =>
      [Event.fopen outputFilename "w", Event.fputs outputFilename rightProcessOutput,
        exitStatusLine rightProgramPath exit_status]
  else if redirectOption &&& REDIR_APPEND = REDIR_APPEND then
    match outputFilename with
    | none => [Event.crash]
    | some outputFilename =>
      [Event.fopen outputFilename "a", Event.fputs outputFilename rightProcessOutput,
        exitStatusLine rightProgramPath exit_status]
  else [exitStatusLine rightProgramPath exit_status]

/-- The body of `handlePiping` up to its last statement
`if (numberOfPipes == 1) ... else handlePiping(...)`, which is `andThen`, given
the output, the path and the exit status of the right process.  A NULL
`inputArguments` is `none`; the left program is fed nothing then. -/
def handlePipingStages (W : World) (commandWords : Words)
    (inputArguments : Option (List CString))
    (andThen : List CString → CString → Nat → List Event) : List Event :=
  let rightChunk := rightPartition commandWords ['|'] false
  let leftProcess := leftPartition commandWords ['|']
  let rightProcess := leftPartition rightChunk ['|']
  if leftProcess.head? = none ∨ rightProcess.head? = none then
    [Event.stdout "invalid pipe"]
  else
    match pipeStage W leftProcess (inputArguments.getD []) with
    | Except.error events => events
    | Except.ok (leftEvents, leftProcessOutput, _, _) =>
      match pipeStage W rightProcess leftProcessOutput with
      | Except.error events => leftEvents ++ events
      | Except.ok (rightEvents, rightProcessOutput, rightProgramPath, exit_status) =>
        leftEvents ++ rightEvents ++ andThen rightProcessOutput rightProgramPath exit_status

/-- Function `handlePiping(commandWords, path, environ, inputArguments,
numberOfPipes, redirectOption, outputFilename)`.  With `numberOfPipes` 1 the
last statement is the terminating case, otherwise it is the recursive call on
`rightChunk` with `numberOfPipes - 1`; with `numberOfPipes` 0 the terminating
case is never reached by counting down, which is `Event.hang` after the first
two programs. -/
def handlePiping (W : World) (commandWords : Words)
    (inputArguments : Option (List CString)) (numberOfPipes redirectOption : Nat)
    (outputFilename : Option CString) : List Event :=
  match numberOfPipes with
  | 0 => handlePipingStages W commandWords inputArguments (fun _ _ _ => [Event.hang])
  | 1 =>
    handlePipingStages W commandWords inputArguments
      (fun rightProcessOutput rightProgramPath exit_status =>
        emitPipelineOutput redirectOption outputFilename rightProcessOutput
          rightProgramPath exit_status)
  | numberOfPipes + 2 =>
    handlePipingStages W commandWords inputArguments
      (fun rightProcessOutput _ _ =>
        handlePiping W (rightPartition commandWords ['|'] false) (some rightProcessOutput)
          (numberOfPipes + 1) redirectOption outputFilename)

/-- The arguments of a call of `handlePiping`. -/
structure HandlePipingCall where
  commandWords : Words
  inputArguments : Option (List CString)
  numberOfPipes : Nat
  redirectOption : Nat
  outputFilename : Option CString
  deriving DecidableEq

/-- Function `executePiping(commandWords, path, environ)` up to its last
statement, the call of `handlePiping`: the events so far, and the arguments of
that call (`none` when `executePiping` returns before it).  The loop of
`expandWildcards` is given `fuel` passes. -/
def executePipingCall (W : World) (fuel : Nat) (commandWords : Words) :
    List Event × Option HandlePipingCall :=
  let argc := getWordCount commandWords
  let numberOfPipes := getNumberOfPipes commandWords
  let redirectOption := 0
  match expandWildcards W.glob fuel commandWords with
  | none => ([Event.hang], none)
  | some commandWords =>
    if isRedirectionCommand commandWords = true then
      let flags := getRedirectionType commandWords
      let reported := flags.2.map Event.stderr
      let flags := flags.1
      let redirTypes := REDIR_INPUT ||| REDIR_OUTPUT ||| REDIR_APPEND
      if flags &&& redirTypes = 0 then
        (reported ++ [Event.stderr "invalid input redirection"], none)
      else
        -- if ((flags & REDIR_OUTPUT) == REDIR_OUTPUT) { ... }
        let isOutput := decide (flags &&& REDIR_OUTPUT = REDIR_OUTPUT)
        let outputFilename := if isOutput then commandWords[argc - 1]? else none
        let redirectOption := if isOutput then REDIR_OUTPUT else redirectOption
        let commandWords := if isOutput then leftPartition commandWords ['>'] else commandWords
        -- if ((flags & REDIR_APPEND) == REDIR_APPEND) { ... }
        let isAppend := decide (flags &&& REDIR_APPEND = REDIR_APPEND)
        let outputFilename := if isAppend then commandWords[argc - 1]? else outputFilename
        let redirectOption := if isAppend then REDIR_APPEND else redirectOption
        let commandWords := if isAppend then leftPartition commandWords ['>'] else commandWords
        -- if ((flags & REDIR_INPUT) == REDIR_INPUT) { ... }
        if flags &&& REDIR_INPUT = REDIR_INPUT then
          match commandWords[1]? with
          | none => (reported ++ [Event.crash], none)
          | some inputFilename =>
            match W.readLines inputFilename with
            | none =>
              (reported ++
                [Event.stderr (String.mk inputFilename ++ ": No such file or directory")],
                none)
            | some lines =>
              (reported ++ [Event.fopen inputFilename "r"],
                some ⟨rightPartition commandWords inputFilename false, some lines,
                  numberOfPipes, redirectOption, outputFilename⟩)
        else
          (reported, some ⟨commandWords, none, numberOfPipes, redirectOption, outputFilename⟩)
    else ([], some ⟨commandWords, none, numberOfPipes, redirectOption, none⟩)

/-- Function `executePiping(commandWords, path, environ)`. -/
def executePiping (W : World) (fuel : Nat) (commandWords : Words) : List Event :=
  let call := executePipingCall W fuel commandWords
  call.1 ++
    match call.2 with
    | none => []
    | some c =>
      handlePiping W c.commandWords c.inputArguments c.numberOfPipes c.redirectOption
        c.outputFilename

/-! ## The history file -/

/-- Function `formString(words)`: `words[0]`, then a space and the word for
every further word, then a newline; `none` when the assertion
`words[0] != NULL` fails. -/
def formString (words : Words) : Option CString :=
  match words with
  | [] => none
  | first :: rest =>
    -- strcpy(result, words[0]); for (...) { strcat(result, " "); strcat(result, words[i]); }
    let result := rest.foldl (fun result word => result ++ [' '] ++ word) first
    -- strcat(result, "\n");
    some (result ++ ['\n'])

/-- The loop of `isNumber` from index `i` on, `len` being `strlen(argument)`:
a `-` at index 0 of a string of more than one character is passed over, any
other character that is not a digit makes the result false. -/
def isNumberFrom (len : Nat) : CString → Nat → Bool
  | [], _ => true
  | ch :: rest, i =>
    if ch = '-' ∧ i = 0 ∧ len > 1 then isNumberFrom len rest (i + 1)
    else if ¬ ('0' ≤ ch ∧ ch ≤ '9') then false
    else isNumberFrom len rest (i + 1)

/-- Function `isNumber(argument)`. -/
def isNumber (argument : CString) : Bool :=
  isNumberFrom argument.length argument 0

/-- The value of the leading decimal digits of a string, after the value `acc`
of the digits already read. -/
def atoiDigits : CString → Nat → Nat
  | [], acc => acc
  | ch :: rest, acc =>
    if '0' ≤ ch ∧ ch ≤ '9' then atoiDigits rest (10 * acc + (ch.toNat - '0'.toNat))
    else acc

/-- The libc function `atoi` on a string without leading white space: an
optional sign, then the value of the leading digits.  The value is taken to fit
an `int`. -/
def atoi : CString → Int
  | '-' :: rest => - (atoiDigits rest 0 : Int)
  | '+' :: rest => (atoiDigits rest 0 : Int)
  | s => (atoiDigits s 0 : Int)

/-- Function `getHistoryLineCount()`: the number of lines of the history file,
0 when it cannot be opened.  The history file is `none` when it cannot be
opened and the list of its lines, each with its newline, otherwise. -/
def getHistoryLineCount (history : Option (List CString)) : Nat :=
  match history with
  | none => 0
  | some lines => lines.length

/-- Function `getCommandFromHistory(lineNumber)`: NULL (`none`) when the file
cannot be opened; otherwise a copy of the buffer `line` after the reading loop,
which stops at line `lineNumber` when there is one and at the end of the file
otherwise, the buffer then holding the last line read.  When no line was read
the buffer is uninitialised, which is `none` too. -/
def getCommandFromHistory (history : Option (List CString)) (lineNumber : Int) :
    Option CString :=
  match history with
  | none => none
  | some lines =>
    if 0 ≤ lineNumber ∧ lineNumber < lines.length then lines[lineNumber.toNat]?
    else lines.getLast?

/-- The branch `printf("%s", command); historyWords = tokenize(command, ...)`
of `getHistoryWords`; a `command` that is NULL or uninitialised is a crash. -/
def replayCommand (command : Option CString) : Option Words × List Event :=
  match command with
  | none => (none, [Event.crash])
  | some command =>
    (tokenize command WORD_SEPARATORS SPECIAL_CHARS, [Event.stdout (String.mk command)])

/-- Function `getHistoryWords(words)` for a non-empty `words`: the words
returned (`none` for NULL) and the events. -/
def getHistoryWords (history : Option (List CString)) (words : Words) :
    Option Words × List Event :=
  let argc := getWordCount words
  let lineCount := getHistoryLineCount history
  if argc = 1 then
    if lineCount > 0 then
      replayCommand (getCommandFromHistory history ((lineCount : Int) - 1))
    else
      (none, [Event.stderr (String.mk (words.headD []) ++ ": invalid history reference")])
  else if argc = 2 then
    if isNumber (words.getD 1 []) = true then
      let lineNumber := atoi (words.getD 1 [])
      if lineNumber > (lineCount : Int) ∨ lineNumber < 0 then
        (none,
          [Event.stderr (String.mk (words.headD []) ++ ": invalid history reference")])
      else replayCommand (getCommandFromHistory history lineNumber)
    else
      (none, [Event.stderr (String.mk (words.headD []) ++ ": " ++
        String.mk (words.getD 1 []) ++ ": numeric argument required")])
  else (none, [Event.stderr (String.mk (words.headD []) ++ ": too many arguments")])

/-! ## Notions the properties are stated with -/

/-- The word sequence of a pipeline: its stages, in order, with a `|` word
between each two. -/
def joinStages : List Words → Words
  | [] => []
  | [stage] => stage
  | stage :: rest => stage ++ ['|'] :: joinStages rest

/-- The event is the start of a process. -/
def Event.isSpawn : Event → Bool
  | Event.spawn _ _ _ => true
  | _ => false

/-- The event is the opening of a file. -/
def Event.isFopen : Event → Bool
  | Event.fopen _ _ => true
  | _ => false

/-- The argument vector an executor resolves its program from and spawns it
with: `rightWords`, `leftWords` or `commandWords` in the C code (`none` when
the assertion `words[1] != NULL` fails). -/
def RedirExecutor.argv : RedirExecutor → Words → Option Words
  | .executeRedirInput, words =>
    words[1]?.map (fun fileName => rightPartition words fileName true)
  | .executeRedirOutput, words => some (leftPartition words ['>'])
  | .executeRedirAppend, words => some (leftPartition words ['>'])
  | .executeRedirInputAndOutput, words =>
    words[1]?.map (fun inputFileName =>
      leftPartition (rightPartition words inputFileName true) ['>'])
  | .executeRedirInputAndAppend, words =>
    words[1]?.map (fun inputFileName =>
      leftPartition (rightPartition words inputFileName true) ['>'])

/-- The loop of `expandWildcards` seen from the words still to be visited: a
wildcard word with matches gives way to its first match, and the other matches
are put in front of the words still to be visited. -/
def expandTodo (glob : CString → Option Words) : Nat → Words → Option Words
  | 0, _ => none
  | _ + 1, [] => some []
  | fuel + 1, w :: rest =>
    match (if hasWildcard w then glob w else none) with
    | some (m :: ms) => (expandTodo glob fuel (ms ++ rest)).map (fun r => m :: r)
    | _ => (expandTodo glob fuel rest).map (fun r => w :: r)

/-- The stage resolves to a program that can be executed: the test
`programPath != NULL && is_executable(programPath)` on its first word. -/
def stageRuns (W : World) (stage : Words) : Bool :=
  canExecute W (getPathToProgram W (stage.headD []))

/-- The path the program of a stage that runs is spawned at. -/
def stagePath (W : World) (stage : Words) : CString :=
  (getPathToProgram W (stage.headD [])).getD []

/-- The lines a stage that runs writes when it is fed `input`. -/
def stageOutput (W : World) (stage : Words) (input : List CString) : List CString :=
  (W.run (stagePath W stage) stage (some input)).1

/-- A word as the tokenizer makes them with the shell's separators and
operators: one operator character, or a non-empty string without separator and
without operator character. -/
def IsTokenWord (w : CString) : Prop :=
  (∃ c, c ∈ SPECIAL_CHARS ∧ w = [c]) ∨
    (w ≠ [] ∧ ∀ c ∈ w, c ∉ WORD_SEPARATORS ∧ c ∉ SPECIAL_CHARS)

/-- A non-empty string without separator and without operator character. -/
def IsPlainWord (w : CString) : Prop :=
  w ≠ [] ∧ ∀ c ∈ w, c ∉ WORD_SEPARATORS ∧ c ∉ SPECIAL_CHARS

/-- The words, with one space between each two. -/
def joinWords : Words → CString
  | [] => []
  | first :: rest => first ++ rest.flatMap (fun word => ' ' :: word)

/-! ## Example systems -/

/-- A system in which `glob` is the given function, every program name is found
in `/bin` and can be executed, no file can be read and nothing is a directory,
and every program copies its input to its output and adds one line, its own
name (`argv[0]`), exiting with status 0. -/
def echoWorld (glob : CString → Option Words) : World where
  glob := glob
  findInPath := fun target => some ("/bin/".toList ++ target)
  is_executable := fun _ => true
  fileExists := fun _ => true
  isDirectory := fun _ => false
  readLines := fun _ => none
  run := fun _ argv input => (input.getD [] ++ [argv.headD []], 0)

/-- A `glob` that finds nothing: with `GLOB_NOCHECK` it returns the pattern
itself. -/
def globNoMatch : CString → Option Words :=
  fun pattern => some [pattern]

/-- A `glob` for a directory that holds one file with a one-letter name, the
file `>`: the pattern `?` finds it, every other pattern finds nothing. -/
def globOperatorFile : CString → Option Words :=
  fun pattern => if pattern = ['?'] then some [['>']] else some [pattern]

/-- A `glob` for a directory that holds the two files `a` and `b`: the pattern
`*` finds them, every other pattern finds nothing. -/
def globTwoFiles : CString → Option Words :=
  fun pattern => if pattern = ['*'] then some [['a'], ['b']] else some [pattern]

/-- A `glob` for a directory that holds one file with a one-letter name, the
file `|`: the pattern `?` finds it, every other pattern finds nothing. -/
def globPipeFile : CString → Option Words :=
  fun pattern => if pattern = ['?'] then some [['|']] else some [pattern]

/-! ## Lemmas on `strspn` and `strcspn` -/

theorem strspn_le (s accept : CString) : strspn s accept ≤ s.length := by
  induction s with
  | nil => simp [strspn]
  | cons c s ih => simp only [strspn]; split <;> simp; omega

theorem strcspn_le (s reject : CString) : strcspn s reject ≤ s.length := by
  induction s with
  | nil => simp [strcspn]
  | cons c s ih => simp only [strcspn]; split <;> simp; omega

/-- After skipping `strspn` characters the string is empty or starts with a
character outside `accept`. -/
theorem drop_strspn_head (s accept : CString) (c : Char) (t : CString)
    (h : s.drop (strspn s accept) = c :: t) : c ∉ accept := by
  induction s with
  | nil => simp [strspn] at h
  | cons d s ih =>
    simp only [strspn] at h
    split at h
    · exact ih (by simpa using h)
    · simp only [List.drop_zero, List.cons.injEq] at h
      rw [← h.1]; assumption

/-- After skipping `strcspn` characters the string is empty or starts with a
character of `reject`. -/
theorem drop_strcspn_head (s reject : CString) (c : Char) (t : CString)
    (h : s.drop (strcspn s reject) = c :: t) : c ∈ reject := by
  induction s with
  | nil => simp [strcspn] at h
  | cons d s ih =>
    simp only [strcspn] at h
    split at h
    · simp only [List.drop_zero, List.cons.injEq] at h
      rw [← h.1]; assumption
    · exact ih (by simpa using h)

/-- The first `strcspn` characters hold no character of `reject`. -/
theorem take_strcspn_not_mem (s reject : CString) (n : Nat)
    (hn : n ≤ strcspn s reject) : ∀ c ∈ s.take n, c ∉ reject := by
  induction s generalizing n with
  | nil => simp
  | cons d s ih =>
    simp only [strcspn] at hn
    split at hn
    · have : n = 0 := by omega
      subst this; simp
    · cases n with
      | zero => simp
      | succ n =>
        intro c hc
        simp only [List.take_succ_cons, List.mem_cons] at hc
        rcases hc with rfl | hc
        · assumption
        · exact ih n (by omega) c hc

/-- The first `strspn` characters are all characters of `accept`. -/
theorem strspn_eq_length (s accept : CString) (h : ∀ c ∈ s, c ∈ accept) :
    strspn s accept = s.length := by
  induction s with
  | nil => simp [strspn]
  | cons d s ih =>
    simp only [strspn, List.length_cons]
    rw [if_pos (h d (List.mem_cons_self _ _)), ih (fun c hc => h c (List.mem_cons_of_mem _ hc))]

theorem strcspn_pos (c : Char) (t reject : CString) (h : c ∉ reject) :
    0 < strcspn (c :: t) reject := by
  simp [strcspn, h]

/-! ## Lemmas on the loop of `tokenize` -/

theorem tokenizeLoop_succ (separators special_chars : CString) (fuel : Nat)
    (s : CString) (tokens : Words) :
    tokenizeLoop separators special_chars (fuel + 1) s tokens =
      if s = [] then some tokens
      else if s.drop (strspn s separators) = [] then some tokens
      else tokenizeLoop separators special_chars fuel
        ((s.drop (strspn s separators)).drop
          (tokenLength separators special_chars (s.drop (strspn s separators))))
        (tokens ++ [(s.drop (strspn s separators)).take
          (tokenLength separators special_chars (s.drop (strspn s separators)))]) := by
  rfl

theorem tokenLength_pos (separators special_chars : CString) (c : Char)
    (t : CString) (h : c ∉ separators) :
    0 < tokenLength separators special_chars (c :: t) := by
  have h1 := strcspn_pos c t separators h
  simp only [tokenLength]
  split <;> split <;> omega

theorem tokenLength_le_seps (separators special_chars s : CString) :
    tokenLength separators special_chars s ≤ strcspn s separators := by
  simp only [tokenLength]
  split <;> split <;> omega

/-- When the string starts with a special character the token is that
character alone. -/
theorem tokenLength_special (separators special_chars : CString) (c : Char)
    (t : CString) (h : c ∉ separators) (hs : c ∈ special_chars) :
    tokenLength separators special_chars (c :: t) = 1 := by
  have h1 := strcspn_pos c t separators h
  have h2 : strcspn (c :: t) special_chars = 0 := by simp [strcspn, hs]
  simp only [tokenLength, h2]
  simp only [if_true]
  split <;> omega

/-- When the string starts with an ordinary character the token is the shorter
of the two runs. -/
theorem tokenLength_ordinary (separators special_chars : CString) (c : Char)
    (t : CString) (hs : c ∉ special_chars) :
    tokenLength separators special_chars (c :: t) =
      min (strcspn (c :: t) separators) (strcspn (c :: t) special_chars) := by
  have h2 := strcspn_pos c t special_chars hs
  simp only [tokenLength]
  rw [if_neg (Nat.pos_iff_ne_zero.mp h2)]
  split <;> omega

/-- The loop of `tokenize` ends within `strlen(s) + 1` passes, and any relation
`R` between the rest of the input and the tokens produced from it that is
preserved by one pass holds of its result. -/
theorem tokenizeLoop_ind (separators special_chars : CString)
    (R : CString → Words → Prop)
    (hstop : ∀ s, s.drop (strspn s separators) = [] → R s [])
    (hstep : ∀ s c t ws, s.drop (strspn s separators) = c :: t →
      R ((c :: t).drop (tokenLength separators special_chars (c :: t))) ws →
      R s ((c :: t).take (tokenLength separators special_chars (c :: t)) :: ws)) :
    ∀ (fuel : Nat) (s : CString) (tokens : Words), s.length < fuel →
      ∃ ws, tokenizeLoop separators special_chars fuel s tokens = some (tokens ++ ws)
        ∧ R s ws := by
  intro fuel
  induction fuel with
  | zero => intro s tokens h; omega
  | succ fuel ih =>
    intro s tokens hlen
    rw [tokenizeLoop_succ]
    by_cases hs : s = []
    · rw [if_pos hs]
      exact ⟨[], by simp, hstop s (by simp [hs])⟩
    · rw [if_neg hs]
      cases hd : s.drop (strspn s separators) with
      | nil =>
        rw [if_pos rfl]
        exact ⟨[], by simp, hstop s hd⟩
      | cons c t =>
        rw [if_neg (by simp)]
        have hc : c ∉ separators := drop_strspn_head s separators c t hd
        have hpos := tokenLength_pos separators special_chars c t hc
        have hl : (c :: t).length ≤ s.length := by
          rw [← hd, List.length_drop]; omega
        have hlt : ((c :: t).drop (tokenLength separators special_chars (c :: t))).length
            < fuel := by
          have hne : 0 < (c :: t).length := by simp
          rw [List.length_drop]; omega
        obtain ⟨ws, hws, hR⟩ := ih _
          (tokens ++ [(c :: t).take (tokenLength separators special_chars (c :: t))]) hlt
        refine ⟨_ :: ws, ?_, hstep s c t ws hd hR⟩
        rw [hws]; simp

/-! ## Lemmas on the specification side of the tokenizer -/

theorem sep_not_special (c : Char) (h : c ∈ WORD_SEPARATORS) : c ∉ SPECIAL_CHARS := by
  simp only [WORD_SEPARATORS, List.mem_cons, List.mem_singleton, List.not_mem_nil,
    or_false] at h
  rcases h with rfl | rfl | rfl | rfl <;> decide

theorem space_sep : ' ' ∈ WORD_SEPARATORS := by decide

theorem tokenizeSpec_eq (line : CString) :
    tokenizeSpec line = (splitPadded line).filter (fun w => decide (w ≠ [])) := rfl

theorem padOperators_cons (c : Char) (s : CString) :
    padOperators (c :: s) =
      (if c ∈ SPECIAL_CHARS then [' ', c, ' '] else [c]) ++ padOperators s := by
  simp [padOperators]

theorem splitPadded_nil : splitPadded [] = [[]] := by
  simp [splitPadded, padOperators, List.splitOnP_nil]

theorem splitPadded_sep (c : Char) (s : CString) (h : c ∈ WORD_SEPARATORS) :
    splitPadded (c :: s) = [] :: splitPadded s := by
  simp only [splitPadded, padOperators_cons, if_neg (sep_not_special c h)]
  simp [List.splitOnP_cons, h]

theorem splitPadded_special (c : Char) (s : CString) (h : c ∈ SPECIAL_CHARS) :
    splitPadded (c :: s) = [] :: [c] :: splitPadded s := by
  have hc : c ∉ WORD_SEPARATORS := fun hsep => sep_not_special c hsep h
  simp only [splitPadded, padOperators_cons, if_pos h]
  simp [List.splitOnP_cons, hc, space_sep, List.modifyHead]

theorem splitPadded_ordinary (c : Char) (s : CString) (hc : c ∉ WORD_SEPARATORS)
    (h : c ∉ SPECIAL_CHARS) :
    splitPadded (c :: s) = (splitPadded s).modifyHead (List.cons c) := by
  simp only [splitPadded, padOperators_cons, if_neg h]
  simp [List.splitOnP_cons, hc]

theorem splitPadded_ne_nil (s : CString) : splitPadded s ≠ [] :=
  List.splitOnP_ne_nil _ _

/-- A run of ordinary characters stays in one piece, glued to the piece that
follows it. -/
theorem splitPadded_run (r rest : CString)
    (h : ∀ c ∈ r, c ∉ WORD_SEPARATORS ∧ c ∉ SPECIAL_CHARS) :
    splitPadded (r ++ rest) = (splitPadded rest).modifyHead (fun w => r ++ w) := by
  induction r with
  | nil =>
    rw [List.nil_append]
    cases hsp : splitPadded rest with
    | nil => rfl
    | cons a l => simp [List.modifyHead]
  | cons c r ih =>
    have hc := h c (List.mem_cons_self _ _)
    rw [List.cons_append, splitPadded_ordinary c _ hc.1 hc.2,
      ih (fun d hd => h d (List.mem_cons_of_mem _ hd))]
    cases hsp : splitPadded rest with
    | nil => rfl
    | cons a l => simp [List.modifyHead]

/-- At the end of the line, at a separator and at an operator the first piece
is empty. -/
theorem splitPadded_boundary (rest : CString)
    (h : rest = [] ∨ ∃ c t, rest = c :: t ∧ (c ∈ WORD_SEPARATORS ∨ c ∈ SPECIAL_CHARS)) :
    ∃ l, splitPadded rest = [] :: l := by
  rcases h with rfl | ⟨c, t, rfl, hc | hc⟩
  · exact ⟨[], splitPadded_nil⟩
  · exact ⟨_, splitPadded_sep c t hc⟩
  · exact ⟨_, splitPadded_special c t hc⟩

theorem tokenizeSpec_nil : tokenizeSpec [] = [] := by
  simp [tokenizeSpec_eq, splitPadded_nil]

theorem tokenizeSpec_sep (c : Char) (s : CString) (h : c ∈ WORD_SEPARATORS) :
    tokenizeSpec (c :: s) = tokenizeSpec s := by
  simp [tokenizeSpec_eq, splitPadded_sep c s h]

theorem tokenizeSpec_special (c : Char) (s : CString) (h : c ∈ SPECIAL_CHARS) :
    tokenizeSpec (c :: s) = [c] :: tokenizeSpec s := by
  simp [tokenizeSpec_eq, splitPadded_special c s h]

theorem tokenizeSpec_run (r rest : CString) (hr : r ≠ [])
    (h : ∀ c ∈ r, c ∉ WORD_SEPARATORS ∧ c ∉ SPECIAL_CHARS)
    (hrest : rest = [] ∨
      ∃ c t, rest = c :: t ∧ (c ∈ WORD_SEPARATORS ∨ c ∈ SPECIAL_CHARS)) :
    tokenizeSpec (r ++ rest) = r :: tokenizeSpec rest := by
  obtain ⟨l, hl⟩ := splitPadded_boundary rest hrest
  simp [tokenizeSpec_eq, splitPadded_run r rest h, hl, List.modifyHead, hr]

theorem tokenizeSpec_drop_strspn (s : CString) :
    tokenizeSpec (s.drop (strspn s WORD_SEPARATORS)) = tokenizeSpec s := by
  induction s with
  | nil => simp [strspn]
  | cons c s ih =>
    simp only [strspn]
    split
    · rename_i h
      rw [List.drop_succ_cons, ih, tokenizeSpec_sep c s h]
    · rfl

/-- What is left after a token of `min (strcspn ..) (strcspn ..)` characters is
empty or starts with a separator or an operator. -/
theorem drop_min_boundary (s a b : CString) :
    s.drop (min (strcspn s a) (strcspn s b)) = [] ∨
      ∃ c t, s.drop (min (strcspn s a) (strcspn s b)) = c :: t ∧ (c ∈ a ∨ c ∈ b) := by
  cases hd : s.drop (min (strcspn s a) (strcspn s b)) with
  | nil => exact Or.inl rfl
  | cons c t =>
    refine Or.inr ⟨c, t, rfl, ?_⟩
    rcases Nat.le_total (strcspn s a) (strcspn s b) with hle | hle
    · rw [Nat.min_eq_left hle] at hd
      exact Or.inl (drop_strcspn_head s a c t hd)
    · rw [Nat.min_eq_right hle] at hd
      exact Or.inr (drop_strcspn_head s b c t hd)

/-- One pass of the loop of `tokenize` takes off the input exactly the first
word of the specification side. -/
theorem tokenizeSpec_step (c : Char) (t : CString) (hc : c ∉ WORD_SEPARATORS) :
    tokenizeSpec (c :: t) =
      (c :: t).take (tokenLength WORD_SEPARATORS SPECIAL_CHARS (c :: t)) ::
        tokenizeSpec ((c :: t).drop (tokenLength WORD_SEPARATORS SPECIAL_CHARS (c :: t))) := by
  by_cases hs : c ∈ SPECIAL_CHARS
  · rw [tokenLength_special _ _ c t hc hs, tokenizeSpec_special c t hs]
    simp
  · have hlen := tokenLength_ordinary WORD_SEPARATORS SPECIAL_CHARS c t hs
    have hpos := tokenLength_pos WORD_SEPARATORS SPECIAL_CHARS c t hc
    generalize hn : tokenLength WORD_SEPARATORS SPECIAL_CHARS (c :: t) = n at hlen hpos
    have hrun : ∀ d ∈ (c :: t).take n, d ∉ WORD_SEPARATORS ∧ d ∉ SPECIAL_CHARS :=
      fun d hd =>
        ⟨take_strcspn_not_mem _ _ n (by omega) d hd,
         take_strcspn_not_mem _ _ n (by omega) d hd⟩
    have hne : (c :: t).take n ≠ [] := by
      cases n with
      | zero => omega
      | succ n => simp
    have hb := drop_min_boundary (c :: t) WORD_SEPARATORS SPECIAL_CHARS
    rw [← hlen] at hb
    have := tokenizeSpec_run _ _ hne hrun hb
    rwa [List.take_append_drop] at this

/-! ## The tokenizer: claims C1 to C3 -/

/-- C1: for every input line, `tokenize(line, " \t\r\n", "!><|")` returns
exactly the words obtained by surrounding every operator character of the line
with a space and then splitting on the separator characters, dropping the empty
pieces; in particular `ls -l<file` gives `ls`, `-l`, `<`, `file`, `a<b` gives
`a`, `<`, `b` and `a<<b` gives `a`, `<`, `<`, `b`. -/
theorem tokenize_eq_tokenizeSpec :
    (∀ line : CString,
      tokenize line WORD_SEPARATORS SPECIAL_CHARS = some (tokenizeSpec line)) ∧
    tokenize "ls -l<file".toList WORD_SEPARATORS SPECIAL_CHARS
      = some ["ls".toList, "-l".toList, "<".toList, "file".toList] ∧
    tokenize "a<b".toList WORD_SEPARATORS SPECIAL_CHARS
      = some ["a".toList, "<".toList, "b".toList] ∧
    tokenize "a<<b".toList WORD_SEPARATORS SPECIAL_CHARS
      = some ["a".toList, "<".toList, "<".toList, "b".toList] := by
  refine ⟨?_, by decide, by decide, by decide⟩
  intro line
  obtain ⟨ws, hws, hR⟩ := tokenizeLoop_ind WORD_SEPARATORS SPECIAL_CHARS
    (fun s ws => ws = tokenizeSpec s)
    (fun s hs => by
      show [] = tokenizeSpec s
      rw [← tokenizeSpec_drop_strspn s, hs, tokenizeSpec_nil])
    (fun s c t ws hd hws => by
      have hc : c ∉ WORD_SEPARATORS := drop_strspn_head s WORD_SEPARATORS c t hd
      have hws : ws = tokenizeSpec _ := hws
      show _ :: ws = tokenizeSpec s
      rw [← tokenizeSpec_drop_strspn s, hd, tokenizeSpec_step c t hc, ← hws])
    (line.length + 1) line [] (Nat.lt_succ_self _)
  rw [tokenize, hws, hR, List.nil_append]

/-- C2: for every input line, every separator set and every special-character
set, `tokenize` returns a word sequence in which each word is non-empty,
contains no separator character, and is either exactly one special character or
contains no special character at all. -/
theorem tokenize_words_wellformed (line separators special_chars : CString) :
    ∃ ws, tokenize line separators special_chars = some ws ∧
      ∀ w ∈ ws, w ≠ [] ∧ (∀ c ∈ w, c ∉ separators) ∧
        ((∃ c, c ∈ special_chars ∧ w = [c]) ∨ ∀ c ∈ w, c ∉ special_chars) := by
  obtain ⟨ws, hws, hR⟩ := tokenizeLoop_ind separators special_chars
    (fun _ ws => ∀ w ∈ ws, w ≠ [] ∧ (∀ c ∈ w, c ∉ separators) ∧
        ((∃ c, c ∈ special_chars ∧ w = [c]) ∨ ∀ c ∈ w, c ∉ special_chars))
    (fun s _ w hw => by simp at hw)
    (fun s c t ws hd hws w hw => by
      have hc : c ∉ separators := drop_strspn_head s separators c t hd
      rcases List.mem_cons.mp hw with rfl | hw
      · have hpos := tokenLength_pos separators special_chars c t hc
        refine ⟨?_, take_strcspn_not_mem _ _ _ (tokenLength_le_seps _ _ _), ?_⟩
        · generalize tokenLength separators special_chars (c :: t) = n at hpos
          cases n with
          | zero => omega
          | succ n => simp
        · by_cases hs : c ∈ special_chars
          · left
            exact ⟨c, hs, by rw [tokenLength_special _ _ c t hc hs]; simp⟩
          · right
            apply take_strcspn_not_mem
            rw [tokenLength_ordinary _ _ c t hs]
            exact Nat.min_le_right _ _
      · exact hws w hw)
    (line.length + 1) line [] (Nat.lt_succ_self _)
  exact ⟨ws, by rw [tokenize, hws, List.nil_append], hR⟩

/-- C3: for every line that is empty or consists only of separator characters
(space, tab, CR, LF), `tokenize` returns the empty word sequence, whatever the
special characters are. -/
theorem tokenize_blank (line special_chars : CString)
    (h : ∀ c ∈ line, c ∈ WORD_SEPARATORS) :
    tokenize line WORD_SEPARATORS special_chars = some [] := by
  rw [tokenize, tokenizeLoop_succ]
  by_cases hl : line = []
  · rw [if_pos hl]
  · rw [if_neg hl, strspn_eq_length line WORD_SEPARATORS h, List.drop_length, if_pos rfl]

/-- C3 at the empty line and at a line of one space, one tab, one CR and one
LF. -/
theorem tokenize_blank_witness :
    (∀ c ∈ ([] : CString), c ∈ WORD_SEPARATORS) ∧
    tokenize [] WORD_SEPARATORS SPECIAL_CHARS = some [] ∧
    (∀ c ∈ [' ', '\t', '\r', '\n'], c ∈ WORD_SEPARATORS) ∧
    tokenize [' ', '\t', '\r', '\n'] WORD_SEPARATORS SPECIAL_CHARS = some [] :=
  ⟨by decide, tokenize_blank [] SPECIAL_CHARS (by decide), by decide,
    tokenize_blank [' ', '\t', '\r', '\n'] SPECIAL_CHARS (by decide)⟩

/-! ## Lemmas on the redirection classifier -/

theorem isRedirection_eq_false_iff (w : CString) :
    isRedirection w = false ↔ w ≠ ['<'] ∧ w ≠ ['>'] := by
  simp [isRedirection]

theorem isRedirection_eq_true_iff (w : CString) :
    isRedirection w = true ↔ w = ['<'] ∨ w = ['>'] := by
  simp [isRedirection]

/-- Reading `words[i]` against a non-empty word. -/
theorem getD_eq_iff (ws : Words) (i : Nat) (w : CString) (hw : w ≠ []) :
    ws.getD i [] = w ↔ ws[i]? = some w := by
  rw [List.getD_eq_getElem?_getD]
  cases h : ws[i]? with
  | none => simp [Ne.symm hw]
  | some v => simp

theorem isRedirection_getD_false_iff (ws : Words) (i : Nat) :
    isRedirection (ws.getD i []) = false ↔
      ∀ w, ws[i]? = some w → w ≠ ['<'] ∧ w ≠ ['>'] := by
  rw [List.getD_eq_getElem?_getD]
  cases h : ws[i]? with
  | none => simp [isRedirection]
  | some v => simp [isRedirection]

theorem redirectionInRange_false_iff (ws : Words) (lo hi : Nat) :
    redirectionInRange ws lo hi = false ↔
      ∀ i w, lo ≤ i → i < hi → ws[i]? = some w → w ≠ ['<'] ∧ w ≠ ['>'] := by
  rw [redirectionInRange, List.any_eq_false]
  constructor
  · intro h i w hlo hhi hw
    have := h i (by rw [List.mem_range']; exact ⟨i - lo, by omega, by omega⟩)
    rw [Bool.not_eq_true, isRedirection_getD_false_iff] at this
    exact this w hw
  · intro h i hi
    rw [List.mem_range'] at hi
    obtain ⟨k, hk, rfl⟩ := hi
    rw [Bool.not_eq_true, isRedirection_getD_false_iff]
    intro w hw
    exact h _ w (by omega) (by omega) hw

theorem getRedirectionType_eq (ws : Words) :
    getRedirectionType ws =
      if ws.length ≤ 2 then (NOT_REDIR, [])
      else if (checkRedirValidity ws (detectedFlags ws)).1 = true
        then (detectedFlags ws, (checkRedirValidity ws (detectedFlags ws)).2)
        else (0, (checkRedirValidity ws (detectedFlags ws)).2) := rfl

/-- The value returned is a non-zero `k` exactly when the flags detected are
`k` and the validity check passes. -/
theorem getRedirectionType_fst_eq_iff (ws : Words) (k : Nat) (hk : k ≠ 0) :
    (getRedirectionType ws).1 = k ↔
      3 ≤ ws.length ∧ detectedFlags ws = k ∧ (checkRedirValidity ws k).1 = true := by
  rw [getRedirectionType_eq]
  by_cases h3 : ws.length ≤ 2
  · rw [if_pos h3]
    constructor
    · intro h; exact absurd h.symm hk
    · intro h; omega
  · rw [if_neg h3]
    by_cases hv : (checkRedirValidity ws (detectedFlags ws)).1 = true
    · rw [if_pos hv]
      constructor
      · intro h
        have h : detectedFlags ws = k := h
        exact ⟨by omega, h, h ▸ hv⟩
      · intro h; exact h.2.1
    · rw [if_neg hv]
      constructor
      · intro h; exact absurd h.symm hk
      · intro h; rw [h.2.1] at hv; exact absurd h.2.2 hv

theorem detectedFlags_cases (ws : Words) :
    detectedFlags ws =
      if ws.getD 0 [] = ['<'] then
        if ws.getD (ws.length - 2) [] = ['>'] then
          if ws.getD (ws.length - 3) [] = ['>'] then 6 else 5
        else 4
      else
        if ws.getD (ws.length - 2) [] = ['>'] then
          if ws.getD (ws.length - 3) [] = ['>'] then 2 else 1
        else 0 := by
  unfold detectedFlags getWordCount
  by_cases hA : ws.getD 0 [] = ['<'] <;>
  by_cases hB : ws.getD (ws.length - 3) [] = ['>'] <;>
  by_cases hC : ws.getD (ws.length - 2) [] = ['>'] <;>
  simp only [hA, hB, hC, if_true, if_false, and_self, and_true, and_false, not_true,
    not_false_eq_true, ne_eq] <;> rfl

theorem checkRedirValidity_input (ws : Words) :
    (checkRedirValidity ws 4).1 = true ↔ redirectionInRange ws 1 ws.length = false := by
  have e : checkRedirValidity ws 4 =
      if redirectionInRange ws 1 ws.length then invalidRedirection else (true, []) := rfl
  rw [e]
  cases redirectionInRange ws 1 ws.length <;> simp [invalidRedirection]

theorem checkRedirValidity_output (ws : Words) :
    (checkRedirValidity ws 1).1 = true ↔
      isRedirection (ws.getD (ws.length - 1) []) = false ∧
        redirectionInRange ws 0 (ws.length - 2) = false := by
  have e : checkRedirValidity ws 1 =
      if isRedirection (ws.getD (ws.length - 1) []) then invalidRedirection
      else if redirectionInRange ws 0 (ws.length - 2) then invalidRedirection
      else (true, []) := rfl
  rw [e]
  cases isRedirection (ws.getD (ws.length - 1) []) <;>
    cases redirectionInRange ws 0 (ws.length - 2) <;> simp [invalidRedirection]

theorem checkRedirValidity_append (ws : Words) :
    (checkRedirValidity ws 2).1 = true ↔
      isRedirection (ws.getD (ws.length - 1) []) = false ∧
        redirectionInRange ws 1 (ws.length - 3) = false := by
  have e : checkRedirValidity ws 2 =
      if isRedirection (ws.getD (ws.length - 1) []) then invalidRedirection
      else if redirectionInRange ws 1 (ws.length - 3) then invalidRedirection
      else (true, []) := rfl
  rw [e]
  cases isRedirection (ws.getD (ws.length - 1) []) <;>
    cases redirectionInRange ws 1 (ws.length - 3) <;> simp [invalidRedirection]

theorem checkRedirValidity_input_output (ws : Words) :
    (checkRedirValidity ws 5).1 = true ↔
      5 ≤ ws.length ∧ isRedirection (ws.getD (ws.length - 1) []) = false ∧
        redirectionInRange ws 1 (ws.length - 2) = false := by
  have e : checkRedirValidity ws 5 =
      if ws.length < 5 then invalidRedirection
      else if isRedirection (ws.getD (ws.length - 1) []) then invalidRedirection
      else if redirectionInRange ws 1 (ws.length - 2) then invalidRedirection
      else (true, []) := rfl
  rw [e]
  by_cases h : ws.length < 5
  · rw [if_pos h]; simp [invalidRedirection]; omega
  · rw [if_neg h]
    cases isRedirection (ws.getD (ws.length - 1) []) <;>
      cases redirectionInRange ws 1 (ws.length - 2) <;> simp [invalidRedirection]
    omega

theorem checkRedirValidity_input_append (ws : Words) :
    (checkRedirValidity ws 6).1 = true ↔
      6 ≤ ws.length ∧ isRedirection (ws.getD (ws.length - 1) []) = false ∧
        redirectionInRange ws 1 (ws.length - 3) = false := by
  have e : checkRedirValidity ws 6 =
      if ws.length < 6 then invalidRedirection
      else if isRedirection (ws.getD (ws.length - 1) []) then invalidRedirection
      else if redirectionInRange ws 1 (ws.length - 3) then invalidRedirection
      else (true, []) := rfl
  rw [e]
  by_cases h : ws.length < 6
  · rw [if_pos h]; simp [invalidRedirection]; omega
  · rw [if_neg h]
    cases isRedirection (ws.getD (ws.length - 1) []) <;>
      cases redirectionInRange ws 1 (ws.length - 3) <;> simp [invalidRedirection]
    omega

theorem detectedFlags_eq_input (ws : Words) :
    detectedFlags ws = 4 ↔
      ws.getD 0 [] = ['<'] ∧ ws.getD (ws.length - 2) [] ≠ ['>'] := by
  rw [detectedFlags_cases]; split_ifs <;> simp [*, -List.getD_eq_getElem?_getD]

theorem detectedFlags_eq_output (ws : Words) :
    detectedFlags ws = 1 ↔
      ws.getD 0 [] ≠ ['<'] ∧ ws.getD (ws.length - 3) [] ≠ ['>'] ∧
        ws.getD (ws.length - 2) [] = ['>'] := by
  rw [detectedFlags_cases]; split_ifs <;> simp [*, -List.getD_eq_getElem?_getD]

theorem detectedFlags_eq_append (ws : Words) :
    detectedFlags ws = 2 ↔
      ws.getD 0 [] ≠ ['<'] ∧ ws.getD (ws.length - 3) [] = ['>'] ∧
        ws.getD (ws.length - 2) [] = ['>'] := by
  rw [detectedFlags_cases]; split_ifs <;> simp [*, -List.getD_eq_getElem?_getD]

theorem detectedFlags_eq_input_output (ws : Words) :
    detectedFlags ws = 5 ↔
      ws.getD 0 [] = ['<'] ∧ ws.getD (ws.length - 3) [] ≠ ['>'] ∧
        ws.getD (ws.length - 2) [] = ['>'] := by
  rw [detectedFlags_cases]; split_ifs <;> simp [*, -List.getD_eq_getElem?_getD]

theorem detectedFlags_eq_input_append (ws : Words) :
    detectedFlags ws = 6 ↔
      ws.getD 0 [] = ['<'] ∧ ws.getD (ws.length - 3) [] = ['>'] ∧
        ws.getD (ws.length - 2) [] = ['>'] := by
  rw [detectedFlags_cases]; split_ifs <;> simp [*, -List.getD_eq_getElem?_getD]

/-- A word read at an index is inside the sequence. -/
theorem lt_length_of_getElem? (ws : Words) (i : Nat) (w : CString)
    (h : ws[i]? = some w) : i < ws.length := by
  by_contra hlt
  rw [List.getElem?_eq_none (by omega)] at h
  cases h

/-- A word that is `<` or `>` is met by no scan that finds nothing. -/
theorem getD_ne_of_scan (ws : Words) (i : Nat) (v : CString) (hv : v = ['<'] ∨ v = ['>'])
    (h : ∀ w, ws[i]? = some w → w ≠ ['<'] ∧ w ≠ ['>']) : ws.getD i [] ≠ v := by
  intro he
  have hne : v ≠ [] := by rcases hv with rfl | rfl <;> simp
  have := h v ((getD_eq_iff ws i v hne).mp he)
  rcases hv with rfl | rfl
  · exact this.1 rfl
  · exact this.2 rfl

/-! ## The redirection classifier: claims C4 to C11 -/

/-- C4: for every non-empty word sequence, `getRedirectionType` returns
`REDIR_INPUT` (InputOnly) exactly when the sequence has at least 3 words, its
first word is `<`, and no word at index 1 or later is `<` or `>`. -/
theorem getRedirectionType_input_iff (ws : Words) (_hne : ws ≠ []) :
    (getRedirectionType ws).1 = REDIR_INPUT ↔
      3 ≤ ws.length ∧ ws[0]? = some ['<'] ∧
        ∀ i w, 1 ≤ i → ws[i]? = some w → w ≠ ['<'] ∧ w ≠ ['>'] := by
  rw [show REDIR_INPUT = 4 from rfl, getRedirectionType_fst_eq_iff ws 4 (by decide),
    detectedFlags_eq_input, checkRedirValidity_input, redirectionInRange_false_iff,
    getD_eq_iff ws 0 ['<'] (by simp)]
  constructor
  · rintro ⟨h3, ⟨hA, _⟩, hs⟩
    exact ⟨h3, hA, fun i w h1 hw => hs i w h1 (lt_length_of_getElem? ws i w hw) hw⟩
  · rintro ⟨h3, hA, hs⟩
    exact ⟨h3, ⟨hA, getD_ne_of_scan ws _ _ (Or.inr rfl) (fun w hw => hs _ w (by omega) hw)⟩,
      fun i w h1 _ hw => hs i w h1 hw⟩

/-- C4 at `< in.txt cat`, which is InputOnly and valid: nothing is reported. -/
theorem getRedirectionType_input_iff_witness :
    [['<'], "in.txt".toList, "cat".toList] ≠ [] ∧
    ((getRedirectionType [['<'], "in.txt".toList, "cat".toList]).1 = REDIR_INPUT ↔
      3 ≤ [['<'], "in.txt".toList, "cat".toList].length ∧
      [['<'], "in.txt".toList, "cat".toList][0]? = some ['<'] ∧
        ∀ i w, 1 ≤ i → [['<'], "in.txt".toList, "cat".toList][i]? = some w →
          w ≠ ['<'] ∧ w ≠ ['>']) ∧
    getRedirectionType [['<'], "in.txt".toList, "cat".toList] = (REDIR_INPUT, []) :=
  ⟨by decide, getRedirectionType_input_iff _ (by decide), by decide⟩

/-- C5: for every non-empty word sequence, `getRedirectionType` returns
`REDIR_OUTPUT` (OutputWrite) exactly when the sequence has at least 3 words,
its second-to-last word is `>`, its last word is neither `<` nor `>`, and none
of the words before the second-to-last word is `<` or `>`. -/
theorem getRedirectionType_output_iff (ws : Words) (_hne : ws ≠ []) :
    (getRedirectionType ws).1 = REDIR_OUTPUT ↔
      3 ≤ ws.length ∧ ws[ws.length - 2]? = some ['>'] ∧
        (∀ w, ws[ws.length - 1]? = some w → w ≠ ['<'] ∧ w ≠ ['>']) ∧
        ∀ i w, i < ws.length - 2 → ws[i]? = some w → w ≠ ['<'] ∧ w ≠ ['>'] := by
  rw [show REDIR_OUTPUT = 1 from rfl, getRedirectionType_fst_eq_iff ws 1 (by decide),
    detectedFlags_eq_output, checkRedirValidity_output, redirectionInRange_false_iff,
    isRedirection_getD_false_iff, getD_eq_iff ws (ws.length - 2) ['>'] (by simp)]
  constructor
  · rintro ⟨h3, ⟨_, _, hC⟩, hl, hs⟩
    exact ⟨h3, hC, hl, fun i w hi hw => hs i w (Nat.zero_le _) hi hw⟩
  · rintro ⟨h3, hC, hl, hs⟩
    exact ⟨h3,
      ⟨getD_ne_of_scan ws _ _ (Or.inl rfl) (fun w hw => hs _ w (by omega) hw),
       getD_ne_of_scan ws _ _ (Or.inr rfl) (fun w hw => hs _ w (by omega) hw), hC⟩,
      hl, fun i w _ hi hw => hs i w hi hw⟩

/-- C5 at `ls > out.txt`, which is OutputWrite and valid. -/
theorem getRedirectionType_output_iff_witness :
    ["ls".toList, ['>'], "out.txt".toList] ≠ [] ∧
    ((getRedirectionType ["ls".toList, ['>'], "out.txt".toList]).1 = REDIR_OUTPUT ↔
      3 ≤ ["ls".toList, ['>'], "out.txt".toList].length ∧
      ["ls".toList, ['>'], "out.txt".toList][
        ["ls".toList, ['>'], "out.txt".toList].length - 2]? = some ['>'] ∧
      (∀ w, ["ls".toList, ['>'], "out.txt".toList][
        ["ls".toList, ['>'], "out.txt".toList].length - 1]? = some w →
          w ≠ ['<'] ∧ w ≠ ['>']) ∧
      ∀ i w, i < ["ls".toList, ['>'], "out.txt".toList].length - 2 →
        ["ls".toList, ['>'], "out.txt".toList][i]? = some w → w ≠ ['<'] ∧ w ≠ ['>']) ∧
    getRedirectionType ["ls".toList, ['>'], "out.txt".toList] = (REDIR_OUTPUT, []) :=
  ⟨by decide, getRedirectionType_output_iff _ (by decide), by decide⟩

/-- C6: for every non-empty word sequence, `getRedirectionType` returns
`REDIR_APPEND` (OutputAppend) exactly when the sequence has at least 3 words,
its first word is not `<`, both its third-to-last and second-to-last words are
`>`, its last word is neither `<` nor `>`, and no word at an index from 1 up to
(but not including) the third-to-last position is `<` or `>`. -/
theorem getRedirectionType_append_iff (ws : Words) (_hne : ws ≠ []) :
    (getRedirectionType ws).1 = REDIR_APPEND ↔
      3 ≤ ws.length ∧ ws[0]? ≠ some ['<'] ∧
        ws[ws.length - 3]? = some ['>'] ∧ ws[ws.length - 2]? = some ['>'] ∧
        (∀ w, ws[ws.length - 1]? = some w → w ≠ ['<'] ∧ w ≠ ['>']) ∧
        ∀ i w, 1 ≤ i → i < ws.length - 3 → ws[i]? = some w → w ≠ ['<'] ∧ w ≠ ['>'] := by
  rw [show REDIR_APPEND = 2 from rfl, getRedirectionType_fst_eq_iff ws 2 (by decide),
    detectedFlags_eq_append, checkRedirValidity_append, redirectionInRange_false_iff,
    isRedirection_getD_false_iff, getD_eq_iff ws (ws.length - 2) ['>'] (by simp),
    getD_eq_iff ws (ws.length - 3) ['>'] (by simp), Ne,
    getD_eq_iff ws 0 ['<'] (by simp)]
  constructor
  · rintro ⟨h3, ⟨hA, hB, hC⟩, hl, hs⟩
    exact ⟨h3, hA, hB, hC, hl, hs⟩
  · rintro ⟨h3, hA, hB, hC, hl, hs⟩
    exact ⟨h3, ⟨hA, hB, hC⟩, hl, hs⟩

/-- C6 at `ls > > out.txt`, which is OutputAppend and valid. -/
theorem getRedirectionType_append_iff_witness :
    ["ls".toList, ['>'], ['>'], "out.txt".toList] ≠ [] ∧
    ((getRedirectionType ["ls".toList, ['>'], ['>'], "out.txt".toList]).1 = REDIR_APPEND ↔
      3 ≤ ["ls".toList, ['>'], ['>'], "out.txt".toList].length ∧
      ["ls".toList, ['>'], ['>'], "out.txt".toList][0]? ≠ some ['<'] ∧
      ["ls".toList, ['>'], ['>'], "out.txt".toList][
        ["ls".toList, ['>'], ['>'], "out.txt".toList].length - 3]? = some ['>'] ∧
      ["ls".toList, ['>'], ['>'], "out.txt".toList][
        ["ls".toList, ['>'], ['>'], "out.txt".toList].length - 2]? = some ['>'] ∧
      (∀ w, ["ls".toList, ['>'], ['>'], "out.txt".toList][
        ["ls".toList, ['>'], ['>'], "out.txt".toList].length - 1]? = some w →
          w ≠ ['<'] ∧ w ≠ ['>']) ∧
      ∀ i w, 1 ≤ i → i < ["ls".toList, ['>'], ['>'], "out.txt".toList].length - 3 →
        ["ls".toList, ['>'], ['>'], "out.txt".toList][i]? = some w →
          w ≠ ['<'] ∧ w ≠ ['>']) ∧
    getRedirectionType ["ls".toList, ['>'], ['>'], "out.txt".toList] = (REDIR_APPEND, []) :=
  ⟨by decide, getRedirectionType_append_iff _ (by decide), by decide⟩

/-- C7: for every non-empty word sequence, `getRedirectionType` returns
`REDIR_INPUT | REDIR_OUTPUT` (InputAndOutputWrite) exactly when the sequence
has at least 5 words, its first word is `<`, its second-to-last word is `>`,
its last word is neither `<` nor `>`, and no word at an index from 1 up to (but
not including) the second-to-last position is `<` or `>`; and every sequence of
3 or 4 words that starts with `<` and has `>` second-to-last is rejected:
"invalid input redirection" is reported and `NOT_REDIR` returned. -/
theorem getRedirectionType_input_output_iff (ws : Words) (_hne : ws ≠ []) :
    ((getRedirectionType ws).1 = (REDIR_INPUT ||| REDIR_OUTPUT) ↔
      5 ≤ ws.length ∧ ws[0]? = some ['<'] ∧ ws[ws.length - 2]? = some ['>'] ∧
        (∀ w, ws[ws.length - 1]? = some w → w ≠ ['<'] ∧ w ≠ ['>']) ∧
        ∀ i w, 1 ≤ i → i < ws.length - 2 → ws[i]? = some w → w ≠ ['<'] ∧ w ≠ ['>']) ∧
    ((ws.length = 3 ∨ ws.length = 4) → ws[0]? = some ['<'] →
      ws[ws.length - 2]? = some ['>'] →
      getRedirectionType ws = (NOT_REDIR, ["invalid input redirection"])) := by
  constructor
  · rw [show (REDIR_INPUT ||| REDIR_OUTPUT) = 5 from rfl,
      getRedirectionType_fst_eq_iff ws 5 (by decide),
      detectedFlags_eq_input_output, checkRedirValidity_input_output,
      redirectionInRange_false_iff, isRedirection_getD_false_iff,
      getD_eq_iff ws (ws.length - 2) ['>'] (by simp), getD_eq_iff ws 0 ['<'] (by simp)]
    constructor
    · rintro ⟨_, ⟨hA, _, hC⟩, h5, hl, hs⟩
      exact ⟨h5, hA, hC, hl, hs⟩
    · rintro ⟨h5, hA, hC, hl, hs⟩
      exact ⟨by omega,
        ⟨hA, getD_ne_of_scan ws _ _ (Or.inr rfl)
          (fun w hw => hs _ w (by omega) (by omega) hw), hC⟩, h5, hl, hs⟩
  · intro hlen hA hC
    rw [← getD_eq_iff ws 0 ['<'] (by simp)] at hA
    rw [← getD_eq_iff ws (ws.length - 2) ['>'] (by simp)] at hC
    have h3 : ¬ ws.length ≤ 2 := by omega
    rw [getRedirectionType_eq, if_neg h3, detectedFlags_cases, if_pos hA, if_pos hC]
    have h5 : checkRedirValidity ws 5 = invalidRedirection := by
      have e : checkRedirValidity ws 5 =
          if ws.length < 5 then invalidRedirection
          else if isRedirection (ws.getD (ws.length - 1) []) then invalidRedirection
          else if redirectionInRange ws 1 (ws.length - 2) then invalidRedirection
          else (true, []) := rfl
      rw [e, if_pos (by omega)]
    have h6 : checkRedirValidity ws 6 = invalidRedirection := by
      have e : checkRedirValidity ws 6 =
          if ws.length < 6 then invalidRedirection
          else if isRedirection (ws.getD (ws.length - 1) []) then invalidRedirection
          else if redirectionInRange ws 1 (ws.length - 3) then invalidRedirection
          else (true, []) := rfl
      rw [e, if_pos (by omega)]
    split
    · rw [h6]; rfl
    · rw [h5]; rfl

/-- C7 at `< in sort > out`, the shortest InputAndOutputWrite command, and at
`< > f`, which is rejected. -/
theorem getRedirectionType_input_output_iff_witness :
    [['<'], "in".toList, "sort".toList, ['>'], "out".toList] ≠ [] ∧
    ((getRedirectionType [['<'], "in".toList, "sort".toList, ['>'], "out".toList]).1
      = (REDIR_INPUT ||| REDIR_OUTPUT) ↔
      5 ≤ [['<'], "in".toList, "sort".toList, ['>'], "out".toList].length ∧
      [['<'], "in".toList, "sort".toList, ['>'], "out".toList][0]? = some ['<'] ∧
      [['<'], "in".toList, "sort".toList, ['>'], "out".toList][
        [['<'], "in".toList, "sort".toList, ['>'], "out".toList].length - 2]?
        = some ['>'] ∧
      (∀ w, [['<'], "in".toList, "sort".toList, ['>'], "out".toList][
        [['<'], "in".toList, "sort".toList, ['>'], "out".toList].length - 1]?
          = some w → w ≠ ['<'] ∧ w ≠ ['>']) ∧
      ∀ i w, 1 ≤ i →
        i < [['<'], "in".toList, "sort".toList, ['>'], "out".toList].length - 2 →
        [['<'], "in".toList, "sort".toList, ['>'], "out".toList][i]? = some w →
          w ≠ ['<'] ∧ w ≠ ['>']) ∧
    getRedirectionType [['<'], "in".toList, "sort".toList, ['>'], "out".toList]
      = (REDIR_INPUT ||| REDIR_OUTPUT, []) ∧
    [['<'], ['>'], ['f']] ≠ [] ∧
    getRedirectionType [['<'], ['>'], ['f']] = (NOT_REDIR, ["invalid input redirection"]) :=
  ⟨by decide, (getRedirectionType_input_output_iff _ (by decide)).1, by decide, by decide,
    (getRedirectionType_input_output_iff [['<'], ['>'], ['f']] (by decide)).2
      (by decide) (by decide) (by decide)⟩

/-- C8: for every non-empty word sequence, `getRedirectionType` returns
`REDIR_INPUT | REDIR_APPEND` (InputAndOutputAppend) exactly when the sequence
has at least 6 words, its first word is `<`, its third-to-last and
second-to-last words are both `>`, its last word is neither `<` nor `>`, and no
word at an index from 1 up to (but not including) the third-to-last position is
`<` or `>`. -/
theorem getRedirectionType_input_append_iff (ws : Words) (_hne : ws ≠ []) :
    (getRedirectionType ws).1 = (REDIR_INPUT ||| REDIR_APPEND) ↔
      6 ≤ ws.length ∧ ws[0]? = some ['<'] ∧
        ws[ws.length - 3]? = some ['>'] ∧ ws[ws.length - 2]? = some ['>'] ∧
        (∀ w, ws[ws.length - 1]? = some w → w ≠ ['<'] ∧ w ≠ ['>']) ∧
        ∀ i w, 1 ≤ i → i < ws.length - 3 → ws[i]? = some w → w ≠ ['<'] ∧ w ≠ ['>'] := by
  rw [show (REDIR_INPUT ||| REDIR_APPEND) = 6 from rfl,
    getRedirectionType_fst_eq_iff ws 6 (by decide),
    detectedFlags_eq_input_append, checkRedirValidity_input_append,
    redirectionInRange_false_iff, isRedirection_getD_false_iff,
    getD_eq_iff ws (ws.length - 2) ['>'] (by simp),
    getD_eq_iff ws (ws.length - 3) ['>'] (by simp), getD_eq_iff ws 0 ['<'] (by simp)]
  constructor
  · rintro ⟨_, ⟨hA, hB, hC⟩, h6, hl, hs⟩
    exact ⟨h6, hA, hB, hC, hl, hs⟩
  · rintro ⟨h6, hA, hB, hC, hl, hs⟩
    exact ⟨by omega, ⟨hA, hB, hC⟩, h6, hl, hs⟩

/-- C8 at `< in sort > > out`, the shortest InputAndOutputAppend command, and at
`< in > > out`, one word too short. -/
theorem getRedirectionType_input_append_iff_witness :
    [['<'], "in".toList, "sort".toList, ['>'], ['>'], "out".toList] ≠ [] ∧
    ((getRedirectionType
        [['<'], "in".toList, "sort".toList, ['>'], ['>'], "out".toList]).1
      = (REDIR_INPUT ||| REDIR_APPEND) ↔
      6 ≤ [['<'], "in".toList, "sort".toList, ['>'], ['>'], "out".toList].length ∧
      [['<'], "in".toList, "sort".toList, ['>'], ['>'], "out".toList][0]? = some ['<'] ∧
      [['<'], "in".toList, "sort".toList, ['>'], ['>'], "out".toList][
        [['<'], "in".toList, "sort".toList, ['>'], ['>'], "out".toList].length - 3]?
        = some ['>'] ∧
      [['<'], "in".toList, "sort".toList, ['>'], ['>'], "out".toList][
        [['<'], "in".toList, "sort".toList, ['>'], ['>'], "out".toList].length - 2]?
        = some ['>'] ∧
      (∀ w, [['<'], "in".toList, "sort".toList, ['>'], ['>'], "out".toList][
        [['<'], "in".toList, "sort".toList, ['>'], ['>'], "out".toList].length - 1]?
          = some w → w ≠ ['<'] ∧ w ≠ ['>']) ∧
      ∀ i w, 1 ≤ i →
        i < [['<'], "in".toList, "sort".toList, ['>'], ['>'], "out".toList].length - 3 →
        [['<'], "in".toList, "sort".toList, ['>'], ['>'], "out".toList][i]? = some w →
          w ≠ ['<'] ∧ w ≠ ['>']) ∧
    getRedirectionType [['<'], "in".toList, "sort".toList, ['>'], ['>'], "out".toList]
      = (REDIR_INPUT ||| REDIR_APPEND, []) ∧
    getRedirectionType [['<'], "in".toList, ['>'], ['>'], "out".toList]
      = (NOT_REDIR, ["invalid input redirection"]) :=
  ⟨by decide, getRedirectionType_input_append_iff _ (by decide), by decide, by decide⟩

/-- C9 fails on the code: the line `> cat > > f` tokenizes to five words that
`getRedirectionType` classifies `REDIR_APPEND` with nothing reported, although
the first word is a `>` that is neither the third-to-last nor the
second-to-last word; the scan of the append case starts at index 1, where the
scan of the write case starts at index 0 and rejects `> cat > f`. -/
theorem getRedirectionType_append_stray_operator :
    tokenize "> cat > > f".toList WORD_SEPARATORS SPECIAL_CHARS
      = some [['>'], "cat".toList, ['>'], ['>'], ['f']] ∧
    getRedirectionType [['>'], "cat".toList, ['>'], ['>'], ['f']] = (REDIR_APPEND, []) ∧
    [['>'], "cat".toList, ['>'], ['>'], ['f']][0]? = some ['>'] ∧
    0 ≠ [['>'], "cat".toList, ['>'], ['>'], ['f']].length - 3 ∧
    0 ≠ [['>'], "cat".toList, ['>'], ['>'], ['f']].length - 2 ∧
    getRedirectionType [['>'], "cat".toList, ['>'], ['f']]
      = (NOT_REDIR, ["invalid input redirection"]) := by
  decide

/-- C10: for every word sequence of length 1 or 2, `getRedirectionType`
returns `NOT_REDIR` (and reports nothing), whatever its words are. -/
theorem getRedirectionType_short (ws : Words)
    (h : ws.length = 1 ∨ ws.length = 2) :
    getRedirectionType ws = (NOT_REDIR, []) := by
  have : ws.length ≤ 2 := by omega
  simp [getRedirectionType, getWordCount, this]

/-- C10 at `echo hello`. -/
theorem getRedirectionType_short_witness :
    (["echo".toList, "hello".toList].length = 1 ∨
      ["echo".toList, "hello".toList].length = 2) ∧
    getRedirectionType ["echo".toList, "hello".toList] = (NOT_REDIR, []) :=
  ⟨by decide, getRedirectionType_short _ (by decide)⟩

/-- C11: for every word sequence of at least 3 words whose first word is not
`<` and whose second-to-last word is not `>`, `getRedirectionType` reports
"invalid input redirection" and returns `NOT_REDIR`. -/
theorem getRedirectionType_no_flag (ws : Words) (h3 : 3 ≤ ws.length)
    (h0 : ws[0]? ≠ some ['<']) (h2 : ws[ws.length - 2]? ≠ some ['>']) :
    getRedirectionType ws = (NOT_REDIR, ["invalid input redirection"]) := by
  have h0 : ¬ ws.getD 0 [] = ['<'] :=
    fun e => h0 ((getD_eq_iff ws 0 ['<'] (by simp)).mp e)
  have h2 : ¬ ws.getD (ws.length - 2) [] = ['>'] :=
    fun e => h2 ((getD_eq_iff ws (ws.length - 2) ['>'] (by simp)).mp e)
  have hlen : ¬ ws.length ≤ 2 := by omega
  rw [getRedirectionType_eq, if_neg hlen, detectedFlags_cases, if_neg h0, if_neg h2]
  rfl

/-- C11 at `cmd > out.txt extra`. -/
theorem getRedirectionType_no_flag_witness :
    3 ≤ ["cmd".toList, ['>'], "out.txt".toList, "extra".toList].length ∧
    getRedirectionType ["cmd".toList, ['>'], "out.txt".toList, "extra".toList]
      = (NOT_REDIR, ["invalid input redirection"]) :=
  ⟨by decide, getRedirectionType_no_flag _ (by decide) (by decide) (by decide)⟩

/-! ## Lemmas on the slices of a word array -/

theorem separatorSearch_not_mem (sep : CString) (b : Bool) (ws : Words) (i : Nat)
    (found : Option Nat) (h : sep ∉ ws) : separatorSearch sep b ws i found = found := by
  induction ws generalizing i with
  | nil => rfl
  | cons w ws ih =>
    have hw : w ≠ sep := fun e => h (e ▸ List.mem_cons_self _ _)
    rw [separatorSearch, if_neg hw]
    exact ih _ (fun hm => h (List.mem_cons_of_mem _ hm))

theorem separatorSearch_first (sep : CString) (s r : Words) (i : Nat)
    (found : Option Nat) (h : sep ∉ s) :
    separatorSearch sep false (s ++ sep :: r) i found = some (i + s.length) := by
  induction s generalizing i with
  | nil => simp [separatorSearch]
  | cons w s ih =>
    have hw : w ≠ sep := fun e => h (e ▸ List.mem_cons_self _ _)
    rw [List.cons_append, separatorSearch, if_neg hw,
      ih _ (fun hm => h (List.mem_cons_of_mem _ hm)), List.length_cons]
    congr 1; omega

theorem leftPartition_not_mem (ws : Words) (sep : CString) (h : sep ∉ ws) :
    leftPartition ws sep = ws := by
  rw [leftPartition, separatorSearch_not_mem sep false ws 0 none h]

theorem rightPartition_not_mem (ws : Words) (sep : CString) (b : Bool) (h : sep ∉ ws) :
    rightPartition ws sep b = ws := by
  rw [rightPartition, separatorSearch_not_mem sep b ws 0 none h]

theorem leftPartition_first (s r : Words) (sep : CString) (h : sep ∉ s) :
    leftPartition (s ++ sep :: r) sep = s := by
  rw [leftPartition, separatorSearch_first sep s r 0 none h]
  simp

theorem rightPartition_first (s r : Words) (sep : CString) (h : sep ∉ s) :
    rightPartition (s ++ sep :: r) sep false = r := by
  rw [rightPartition, separatorSearch_first sep s r 0 none h]
  simp

theorem leftPartition_joinStages (s : Words) (rest : List Words) (h : ['|'] ∉ s) :
    leftPartition (joinStages (s :: rest)) ['|'] = s := by
  cases rest with
  | nil => exact leftPartition_not_mem s _ h
  | cons t rest => exact leftPartition_first s _ _ h

theorem rightPartition_joinStages (s t : Words) (rest : List Words) (h : ['|'] ∉ s) :
    rightPartition (joinStages (s :: t :: rest)) ['|'] false = joinStages (t :: rest) :=
  rightPartition_first s _ _ h

/-! ## Lemmas on wildcard expansion -/

theorem hasWildcard_eq_false_iff (w : CString) :
    hasWildcard w = false ↔
      ∀ c ∈ w, c ≠ '*' ∧ c ≠ '?' ∧ c ≠ '[' ∧ c ≠ ']' ∧ c ≠ '~' := by
  simp only [hasWildcard, List.any_eq_false, Bool.or_eq_true, decide_eq_true_eq, not_or]
  constructor
  · intro h c hc
    obtain ⟨⟨⟨⟨h1, h2⟩, h3⟩, h4⟩, h5⟩ := h c hc
    exact ⟨h1, h2, h3, h4, h5⟩
  · intro h c hc
    obtain ⟨h1, h2, h3, h4, h5⟩ := h c hc
    exact ⟨⟨⟨⟨h1, h2⟩, h3⟩, h4⟩, h5⟩

/-- After the first pass the matches are put in one after the other, behind the
matches already placed. -/
theorem injectMatches_placed (done rest ms : Words) :
    ∀ placed : Words, placed ≠ [] →
      injectMatches done.length (done ++ placed ++ rest) ms placed.length
        = done ++ placed ++ ms ++ rest := by
  induction ms with
  | nil => intro placed _; simp [injectMatches]
  | cons m ms ih =>
    intro placed hp
    have hn : placed.length ≠ 0 := by
      cases placed with
      | nil => exact absurd rfl hp
      | cons a l => simp
    have hinj : injectIntoWords (done ++ placed ++ rest) m (done.length + placed.length)
        = done ++ (placed ++ [m]) ++ rest := by
      have hlen : done.length + placed.length ≤ (done ++ placed ++ rest).length := by
        simp
      rw [injectIntoWords, if_pos hlen]
      have e : done.length + placed.length = (done ++ placed).length := by simp
      rw [e, List.take_left', List.drop_left']
      · simp
      · rfl
      · rfl
    rw [injectMatches]
    simp only [if_neg hn]
    rw [hinj]
    have := ih (placed ++ [m]) (by simp)
    rw [List.length_append, List.length_singleton] at this
    rw [this]
    simp

/-- The whole loop over the matches replaces the word at `i` by the matches. -/
theorem injectMatches_zero (done rest : Words) (w m : CString) (ms : Words) :
    injectMatches done.length (done ++ w :: rest) (m :: ms) 0
      = done ++ (m :: ms) ++ rest := by
  have hrem : removeFromWords (done ++ w :: rest) done.length = done ++ rest := by
    simp [removeFromWords, List.take_append, List.drop_append]
  have hinj : injectIntoWords (done ++ rest) m (done.length + 0) = done ++ [m] ++ rest := by
    have hlen : done.length + 0 ≤ (done ++ rest).length := by simp
    rw [injectIntoWords, if_pos hlen]
    simp [List.take_append, List.drop_append]
  rw [injectMatches]
  simp only [if_true]
  rw [hrem, hinj]
  have := injectMatches_placed done rest ms [m] (by simp)
  rw [List.length_singleton] at this
  rw [this]
  simp

theorem getD_append_cons (done rest : Words) (w : CString) :
    (done ++ w :: rest).getD done.length [] = w := by
  rw [List.getD_eq_getElem?_getD, List.getElem?_append_right (Nat.le_refl _)]
  simp

/-- The loop of `expandWildcards` at index `i`, with `done` the words before
`i` and `todo` the words from `i` on, is `expandTodo` on `todo`. -/
theorem expandWildcardsLoop_eq_expandTodo (glob : CString → Option Words) :
    ∀ (fuel : Nat) (done todo : Words),
      expandWildcardsLoop glob fuel (done ++ todo) done.length
        = (expandTodo glob fuel todo).map (fun r => done ++ r) := by
  intro fuel
  induction fuel with
  | zero => intro done todo; rfl
  | succ fuel ih =>
    intro done todo
    cases todo with
    | nil =>
      rw [expandWildcardsLoop, if_neg (by simp [getWordCount])]
      rfl
    | cons w rest =>
      rw [expandWildcardsLoop, if_pos (by simp [getWordCount]), getD_append_cons]
      have hstep : ∀ m : CString, done ++ m :: rest = (done ++ [m]) ++ rest := by
        intro m; simp
      have hlen : ∀ m : CString, done.length + 1 = (done ++ [m]).length := by
        intro m; simp
      rw [expandTodo]
      by_cases hw : hasWildcard w = true
      · simp only [hw, if_true]
        cases hg : glob w with
        | none =>
          simp only []
          rw [hstep w, hlen w, ih]
          cases expandTodo glob fuel rest <;> simp
        | some gl =>
          cases gl with
          | nil =>
            simp only [injectMatches]
            rw [hstep w, hlen w, ih]
            cases expandTodo glob fuel rest <;> simp
          | cons m ms =>
            simp only []
            rw [injectMatches_zero]
            have e : done ++ (m :: ms) ++ rest = (done ++ [m]) ++ (ms ++ rest) := by simp
            rw [e, hlen m, ih]
            cases expandTodo glob fuel (ms ++ rest) <;> simp
      · simp only [hw]
        simp only [Bool.false_eq_true, if_false]
        rw [hstep w, hlen w, ih]
        cases expandTodo glob fuel rest <;> simp

theorem expandWildcards_eq_expandTodo (glob : CString → Option Words) (fuel : Nat)
    (ws : Words) : expandWildcards glob fuel ws = expandTodo glob fuel ws := by
  have := expandWildcardsLoop_eq_expandTodo glob fuel [] ws
  simp only [List.nil_append, List.length_nil] at this
  rw [expandWildcards, this]
  cases expandTodo glob fuel ws <;> simp

/-- One pass of the loop, whatever the words behind `w` are: `w` gives way to
a first word `m`, and the words `ms` are put in front of the rest. -/
theorem expandTodo_cons (glob : CString → Option Words) (w : CString) :
    ∃ (m : CString) (ms : Words), ∀ (fuel : Nat) (rest : Words),
      expandTodo glob (fuel + 1) (w :: rest)
        = (expandTodo glob fuel (ms ++ rest)).map (fun r => m :: r) := by
  cases hx : (if hasWildcard w then glob w else none) with
  | none => exact ⟨w, [], fun fuel rest => by rw [expandTodo, hx]; rfl⟩
  | some gl =>
    cases gl with
    | nil => exact ⟨w, [], fun fuel rest => by rw [expandTodo, hx]; rfl⟩
    | cons m ms => exact ⟨m, ms, fun fuel rest => by rw [expandTodo, hx]⟩

/-- A word without wildcard character, and a wildcard word for which `glob`
fails or returns the pattern itself, stays as it is. -/
theorem expandTodo_cons_keep (glob : CString → Option Words) (w : CString)
    (h : hasWildcard w = false ∨ glob w = none ∨ glob w = some [w])
    (fuel : Nat) (rest : Words) :
    expandTodo glob (fuel + 1) (w :: rest)
      = (expandTodo glob fuel rest).map (fun r => w :: r) := by
  rw [expandTodo]
  rcases h with h | h | h
  · simp [h]
  · cases hasWildcard w <;> simp [h]
  · cases hasWildcard w <;> simp [h]

theorem expandTodo_mono (glob : CString → Option Words) :
    ∀ (fuel : Nat) (ws r : Words), expandTodo glob fuel ws = some r →
      ∀ fuel', fuel ≤ fuel' → expandTodo glob fuel' ws = some r := by
  intro fuel
  induction fuel with
  | zero => intro ws r h; simp [expandTodo] at h
  | succ fuel ih =>
    intro ws r h fuel' hle
    obtain ⟨k, rfl⟩ : ∃ k, fuel' = k + 1 := ⟨fuel' - 1, by omega⟩
    cases ws with
    | nil => simpa [expandTodo] using h
    | cons w rest =>
      obtain ⟨m, ms, hstep⟩ := expandTodo_cons glob w
      rw [hstep] at h ⊢
      cases h' : expandTodo glob fuel (ms ++ rest) with
      | none => rw [h'] at h; simp at h
      | some r' =>
        rw [h'] at h
        rw [ih _ _ h' k (by omega)]
        exact h

/-- Expanding a sequence is expanding its front part, then its back part. -/
theorem expandTodo_append (glob : CString → Option Words) (b b' : Words) (f2 : Nat)
    (hb : expandTodo glob f2 b = some b') :
    ∀ (f1 : Nat) (a a' : Words), expandTodo glob f1 a = some a' →
      expandTodo glob (f1 + f2) (a ++ b) = some (a' ++ b') := by
  intro f1
  induction f1 with
  | zero => intro a a' h; simp [expandTodo] at h
  | succ f1 ih =>
    intro a a' h
    cases a with
    | nil =>
      simp only [expandTodo, Option.some.injEq] at h
      subst h
      exact expandTodo_mono glob f2 b b' hb _ (by omega)
    | cons w rest =>
      obtain ⟨m, ms, hstep⟩ := expandTodo_cons glob w
      have e : f1 + 1 + f2 = (f1 + f2) + 1 := by omega
      rw [hstep] at h
      rw [List.cons_append, e, hstep]
      cases h' : expandTodo glob f1 (ms ++ rest) with
      | none => rw [h'] at h; simp at h
      | some r' =>
        rw [h'] at h
        simp only [Option.map_some', Option.some.injEq] at h
        subst h
        rw [← List.append_assoc, ih _ _ h']
        simp

theorem expandTodo_length (glob : CString → Option Words) :
    ∀ (fuel : Nat) (ws r : Words), expandTodo glob fuel ws = some r →
      ws.length ≤ r.length := by
  intro fuel
  induction fuel with
  | zero => intro ws r h; simp [expandTodo] at h
  | succ fuel ih =>
    intro ws r h
    cases ws with
    | nil => simp
    | cons w rest =>
      obtain ⟨m, ms, hstep⟩ := expandTodo_cons glob w
      rw [hstep] at h
      cases h' : expandTodo glob fuel (ms ++ rest) with
      | none => rw [h'] at h; simp at h
      | some r' =>
        rw [h'] at h
        simp only [Option.map_some', Option.some.injEq] at h
        subst h
        have := ih _ _ h'
        simp only [List.length_append, List.length_cons] at this ⊢
        omega

/-- A sequence in which every word stays as it is, is returned unchanged. -/
theorem expandTodo_keep (glob : CString → Option Words) :
    ∀ (ws : Words) (fuel : Nat),
      (∀ w ∈ ws, hasWildcard w = false ∨ glob w = none ∨ glob w = some [w]) →
      ws.length < fuel → expandTodo glob fuel ws = some ws := by
  intro ws
  induction ws with
  | nil =>
    intro fuel _ hlt
    obtain ⟨k, rfl⟩ : ∃ k, fuel = k + 1 := ⟨fuel - 1, by omega⟩
    rfl
  | cons w rest ih =>
    intro fuel h hlt
    obtain ⟨k, rfl⟩ : ∃ k, fuel = k + 1 := ⟨fuel - 1, by omega⟩
    rw [expandTodo_cons_keep glob w (h w (List.mem_cons_self _ _)),
      ih k (fun v hv => h v (List.mem_cons_of_mem _ hv))
        (by simp only [List.length_cons] at hlt; omega)]
    rfl

theorem expandWildcards_no_wildcard (glob : CString → Option Words) (ws : Words)
    (fuel : Nat) (h : ∀ w ∈ ws, hasWildcard w = false) (hlt : ws.length < fuel) :
    expandWildcards glob fuel ws = some ws := by
  rw [expandWildcards_eq_expandTodo]
  exact expandTodo_keep glob ws fuel (fun w hw => Or.inl (h w hw)) hlt

/-! ## Wildcard expansion: claims C17 to C19 -/

/-- C17: for every word sequence in which no word contains any of the
characters `*`, `?`, `[`, `]`, `~`, `expandWildcards` returns the sequence
unchanged, whatever `glob` would find; the loop ends within one pass per word
and a last test. -/
theorem expandWildcards_identity (glob : CString → Option Words) (ws : Words)
    (fuel : Nat)
    (h : ∀ w ∈ ws, ∀ c ∈ w, c ≠ '*' ∧ c ≠ '?' ∧ c ≠ '[' ∧ c ≠ ']' ∧ c ≠ '~')
    (hfuel : ws.length < fuel) :
    expandWildcards glob fuel ws = some ws :=
  expandWildcards_no_wildcard glob ws fuel
    (fun w hw => (hasWildcard_eq_false_iff w).mpr (h w hw)) hfuel

/-- C17 at `ls -l file.txt`, with a `glob` that would fail on any pattern. -/
theorem expandWildcards_identity_witness :
    (∀ w ∈ ["ls".toList, "-l".toList, "file.txt".toList],
      ∀ c ∈ w, c ≠ '*' ∧ c ≠ '?' ∧ c ≠ '[' ∧ c ≠ ']' ∧ c ≠ '~') ∧
    ["ls".toList, "-l".toList, "file.txt".toList].length < 4 ∧
    expandWildcards (fun _ => none) 4 ["ls".toList, "-l".toList, "file.txt".toList]
      = some ["ls".toList, "-l".toList, "file.txt".toList] :=
  ⟨by decide, by decide, expandWildcards_identity _ _ 4 (by decide) (by decide)⟩

/-- C18: a wildcard word for which `glob` finds nothing (it returns the pattern
itself, or fails) is kept as it is at its position, between the expansion of
the words before it and the expansion of the words after it; a sequence all of
whose wildcard words find nothing is returned unchanged; and a result is never
shorter than the input, so never empty for a non-empty input. -/
theorem expandWildcards_no_match (glob : CString → Option Words) :
    (∀ (a b a' b' : Words) (w : CString) (f1 f2 fuel : Nat),
      hasWildcard w = true → (glob w = some [w] ∨ glob w = none) →
      expandWildcards glob f1 a = some a' → expandWildcards glob f2 b = some b' →
      f1 + f2 < fuel →
      expandWildcards glob fuel (a ++ w :: b) = some (a' ++ w :: b')) ∧
    (∀ (ws : Words) (fuel : Nat),
      (∀ w ∈ ws, hasWildcard w = true → glob w = some [w] ∨ glob w = none) →
      ws.length < fuel → expandWildcards glob fuel ws = some ws) ∧
    (∀ (ws r : Words) (fuel : Nat), expandWildcards glob fuel ws = some r →
      ws.length ≤ r.length ∧ (ws ≠ [] → r ≠ [])) := by
  refine ⟨?_, ?_, ?_⟩
  · intro a b a' b' w f1 f2 fuel _ hg ha hb hfuel
    rw [expandWildcards_eq_expandTodo] at ha hb ⊢
    have hw : expandTodo glob (f2 + 1) (w :: b) = some (w :: b') := by
      rw [expandTodo_cons_keep glob w (by tauto), hb]; rfl
    exact expandTodo_mono glob _ _ _ (expandTodo_append glob _ _ _ hw f1 a a' ha) fuel
      (by omega)
  · intro ws fuel h hfuel
    rw [expandWildcards_eq_expandTodo]
    refine expandTodo_keep glob ws fuel (fun w hw => ?_) hfuel
    cases hwc : hasWildcard w with
    | false => exact Or.inl rfl
    | true => rcases h w hw hwc with h1 | h1 <;> tauto
  · intro ws r fuel h
    rw [expandWildcards_eq_expandTodo] at h
    have hlen := expandTodo_length glob fuel ws r h
    refine ⟨hlen, fun hne hr => ?_⟩
    subst hr
    cases ws with
    | nil => exact hne rfl
    | cons w ws => simp at hlen

/-- C18 at `*.nomatch`, for which `glob` returns the pattern itself. -/
theorem expandWildcards_no_match_witness :
    (∀ w ∈ ["*.nomatch".toList], hasWildcard w = true →
      globNoMatch w = some [w] ∨ globNoMatch w = none) ∧
    ["*.nomatch".toList].length < 2 ∧
    expandWildcards globNoMatch 2 ["*.nomatch".toList] = some ["*.nomatch".toList] :=
  ⟨fun _ _ _ => Or.inl rfl, by decide,
    (expandWildcards_no_match globNoMatch).2.1 _ 2 (fun _ _ _ => Or.inl rfl) (by decide)⟩

/-- C19 fails on the code: with `glob` finding `a`, `b*` and `bc` for `*`, and
`b*` and `bc` for `b*`, the sequence `ls *` expands to `ls a b* bc bc` and not
to `ls a b* bc`: after a word is replaced by its matches the loop goes on at
the next index, which holds the second match, so `b*` is expanded again. -/
theorem expandWildcards_rescans_matches :
    expandWildcards
      (fun pattern =>
        if pattern = ['*'] then some [['a'], "b*".toList, "bc".toList]
        else if pattern = "b*".toList then some ["b*".toList, "bc".toList]
        else some [pattern])
      10 ["ls".toList, ['*']]
    = some ["ls".toList, ['a'], "b*".toList, "bc".toList, "bc".toList] := by
  decide

/-! ## Executing redirections: claim C12 and the built-in check -/

theorem executeRedirectionCall_of_none (W : World) (fuel : Nat) (ws : Words)
    (h : (getRedirectionType ws).1 = NOT_REDIR) :
    (executeRedirectionCall W fuel ws).2 = none ∧
      (executeRedirectionCall W fuel ws).1 =
        (getRedirectionType ws).2.map Event.stderr ++
          (if expandWildcards W.glob fuel ws = none then [Event.hang] else []) := by
  unfold executeRedirectionCall
  simp only [h]
  cases expandWildcards W.glob fuel ws with
  | none => simp
  | some ws' => exact ⟨rfl, by simp⟩

theorem executePipingCall_of_none (W : World) (fuel : Nat) (ws ws' : Words)
    (he : expandWildcards W.glob fuel ws = some ws')
    (hr : isRedirectionCommand ws' = true)
    (h : (getRedirectionType ws').1 = NOT_REDIR) :
    executePipingCall W fuel ws =
      ((getRedirectionType ws').2.map Event.stderr ++
        [Event.stderr "invalid input redirection"], none) := by
  unfold executePipingCall
  simp only [he, hr, h]
  rfl

theorem isSpawn_stderr_map (lines : List String) :
    ∀ e ∈ lines.map Event.stderr, e.isSpawn = false := by
  intro e he
  obtain ⟨l, _, rfl⟩ := List.mem_map.mp he
  rfl

/-- What does hold of sequences classified as `NOT_REDIR`: `executeRedirection`
calls none of the five executors and spawns no process; `executePiping`
classifies the sequence after wildcard expansion, and when the expanded
sequence holds a `<` or `>` word and is classified as `NOT_REDIR` it returns
without calling `handlePiping` and without spawning a process; that is so in
particular for every sequence without wildcard characters that holds a `<` or
`>` word and is classified as `NOT_REDIR`. -/
theorem invalid_redirection_not_executed (W : World) (fuel : Nat) (ws : Words) :
    ((getRedirectionType ws).1 = NOT_REDIR →
      (executeRedirectionCall W fuel ws).2 = none ∧
        ∀ e ∈ executeRedirection W fuel ws, e.isSpawn = false) ∧
    (∀ ws', expandWildcards W.glob fuel ws = some ws' →
      isRedirectionCommand ws' = true → (getRedirectionType ws').1 = NOT_REDIR →
      (executePipingCall W fuel ws).2 = none ∧
        ∀ e ∈ executePiping W fuel ws, e.isSpawn = false) ∧
    ((∀ w ∈ ws, hasWildcard w = false) → ws.length < fuel →
      isRedirectionCommand ws = true → (getRedirectionType ws).1 = NOT_REDIR →
      (executePipingCall W fuel ws).2 = none ∧
        ∀ e ∈ executePiping W fuel ws, e.isSpawn = false) := by
  have key : ∀ ws', expandWildcards W.glob fuel ws = some ws' →
      isRedirectionCommand ws' = true → (getRedirectionType ws').1 = NOT_REDIR →
      (executePipingCall W fuel ws).2 = none ∧
        ∀ e ∈ executePiping W fuel ws, e.isSpawn = false := by
    intro ws' he hr h
    have hc := executePipingCall_of_none W fuel ws ws' he hr h
    refine ⟨by rw [hc], ?_⟩
    intro e hmem
    simp only [executePiping, hc, List.append_nil, List.mem_append, List.mem_singleton]
      at hmem
    rcases hmem with hmem | rfl
    · exact isSpawn_stderr_map _ e hmem
    · rfl
  refine ⟨?_, key, ?_⟩
  · intro h
    obtain ⟨h2, h1⟩ := executeRedirectionCall_of_none W fuel ws h
    refine ⟨h2, ?_⟩
    intro e hmem
    simp only [executeRedirection, h2, h1, List.append_nil, List.mem_append] at hmem
    rcases hmem with hmem | hmem
    · exact isSpawn_stderr_map _ e hmem
    · split at hmem
      · simp only [List.mem_singleton] at hmem
        subst hmem; rfl
      · simp at hmem
  · intro hw hfuel hr h
    exact key ws (expandWildcards_no_wildcard W.glob ws fuel hw hfuel) hr h

/-- The sequences `cmd > out.txt extra` and `ls | wc > a b` are not executed. -/
theorem invalid_redirection_not_executed_witness :
    (getRedirectionType ["cmd".toList, ['>'], "out.txt".toList, "extra".toList]).1
      = NOT_REDIR ∧
    (executeRedirectionCall (echoWorld globNoMatch) 5
      ["cmd".toList, ['>'], "out.txt".toList, "extra".toList]).2 = none ∧
    (∀ e ∈ executeRedirection (echoWorld globNoMatch) 5
      ["cmd".toList, ['>'], "out.txt".toList, "extra".toList], e.isSpawn = false) ∧
    (executePipingCall (echoWorld globNoMatch) 7
      ["ls".toList, ['|'], "wc".toList, ['>'], ['a'], ['b']]).2 = none ∧
    (∀ e ∈ executePiping (echoWorld globNoMatch) 7
      ["ls".toList, ['|'], "wc".toList, ['>'], ['a'], ['b']], e.isSpawn = false) :=
  ⟨by decide,
    ((invalid_redirection_not_executed (echoWorld globNoMatch) 5
      ["cmd".toList, ['>'], "out.txt".toList, "extra".toList]).1 (by decide)).1,
    ((invalid_redirection_not_executed (echoWorld globNoMatch) 5
      ["cmd".toList, ['>'], "out.txt".toList, "extra".toList]).1 (by decide)).2,
    ((invalid_redirection_not_executed (echoWorld globNoMatch) 7
      ["ls".toList, ['|'], "wc".toList, ['>'], ['a'], ['b']]).2.2
        (by decide) (by decide) (by decide) (by decide)).1,
    ((invalid_redirection_not_executed (echoWorld globNoMatch) 7
      ["ls".toList, ['|'], "wc".toList, ['>'], ['a'], ['b']]).2.2
        (by decide) (by decide) (by decide) (by decide)).2⟩

/-- C12 fails on the code: in a directory whose only one-letter file name is
`>`, the sequence `a | b > ? f` holds a `>` word and `getRedirectionType`
classifies it as `NOT_REDIR`, yet `executePiping` calls `handlePiping` and
spawns processes: it classifies the words only after `expandWildcards`, as
`a | b > > f`, so that a file name found by `glob` counts as an operator.  The
sibling `executeRedirection` classifies the words as typed and rejects
`b > ? f` in the same directory. -/
theorem executePiping_classifies_expanded :
    executeRedirection (echoWorld globOperatorFile) 10 [['b'], ['>'], ['?'], ['f']]
      = [Event.stderr "invalid input redirection"] ∧
    (getRedirectionType [['a'], ['|'], ['b'], ['>'], ['?'], ['f']]).1 = NOT_REDIR ∧
    isRedirectionCommand [['a'], ['|'], ['b'], ['>'], ['?'], ['f']] = true ∧
    (executePipingCall (echoWorld globOperatorFile) 10
      [['a'], ['|'], ['b'], ['>'], ['?'], ['f']]).2
      = some ⟨[['a'], ['|'], ['b']], none, 1, REDIR_APPEND, some ['f']⟩ ∧
    executePiping (echoWorld globOperatorFile) 10
      [['a'], ['|'], ['b'], ['>'], ['?'], ['f']]
      = [Event.spawn "/bin/a".toList [['a']] (some []),
         Event.spawn "/bin/b".toList [['b']] (some [['a']]),
         Event.fopen ['f'] "a", Event.fputs ['f'] [['a'], ['b']],
         Event.stdout "/bin/b exit status = 0"] :=
  ⟨by decide!, by decide, by decide, by rfl, by decide!⟩

theorem isBuiltin_of_builtin (p : CString)
    (h : p = "cd".toList ∨ p = "pwd".toList ∨ p = "history".toList ∨ p = "!".toList) :
    isBuiltin p =
      (true, [String.mk p ++ ": I/O redirection not permitted for builtin commands"]) := by
  rw [isBuiltin, if_pos (by tauto)]

theorem isBuiltin_of_not_builtin (p : CString)
    (h : ¬ (p = "cd".toList ∨ p = "pwd".toList ∨ p = "history".toList ∨ p = "!".toList)) :
    isBuiltin p = (false, []) := by
  rw [isBuiltin, if_neg (by tauto)]

theorem leftPartition_nil (sep : CString) : leftPartition [] sep = [] := rfl

theorem getElem?_last_of_ne_nil (ws : Words) (h : ws ≠ []) :
    ∃ w, ws[getWordCount ws - 1]? = some w := by
  have hpos : 0 < ws.length := List.length_pos.mpr h
  have hlt : ws.length - 1 < ws.length := by omega
  exact ⟨ws[ws.length - 1], List.getElem?_eq_getElem hlt⟩

theorem executeRedirInput_builtin (W : World) (ws : Words) (fileName p : CString)
    (h1 : ws[1]? = some fileName)
    (hp : (rightPartition ws fileName true).head? = some p)
    (hb : p = "cd".toList ∨ p = "pwd".toList ∨ p = "history".toList ∨ p = "!".toList) :
    executeRedirInput W ws =
      [Event.stderr
        (String.mk p ++ ": I/O redirection not permitted for builtin commands")] := by
  unfold executeRedirInput
  simp only [h1, hp, isBuiltin_of_builtin p hb, if_true, List.map_cons, List.map_nil]

theorem executeRedirOutputMode_builtin (W : World) (mode : String) (ws : Words)
    (p : CString) (hp : (leftPartition ws ['>']).head? = some p)
    (hb : p = "cd".toList ∨ p = "pwd".toList ∨ p = "history".toList ∨ p = "!".toList) :
    executeRedirOutputMode W mode ws =
      [Event.stderr
        (String.mk p ++ ": I/O redirection not permitted for builtin commands")] := by
  have hne : ws ≠ [] := by
    intro e; rw [e, leftPartition_nil] at hp; simp at hp
  obtain ⟨f, hf⟩ := getElem?_last_of_ne_nil ws hne
  unfold executeRedirOutputMode
  simp only [hf, hp, isBuiltin_of_builtin p hb, if_true, List.map_cons, List.map_nil]

theorem executeRedirInputAndOutputMode_builtin (W : World) (mode : String) (ws : Words)
    (inputFileName p : CString) (h1 : ws[1]? = some inputFileName)
    (hp : (leftPartition (rightPartition ws inputFileName true) ['>']).head? = some p)
    (hb : p = "cd".toList ∨ p = "pwd".toList ∨ p = "history".toList ∨ p = "!".toList) :
    executeRedirInputAndOutputMode W mode ws =
      [Event.stderr
        (String.mk p ++ ": I/O redirection not permitted for builtin commands")] := by
  have hne : ws ≠ [] := by
    intro e; rw [e] at h1; simp at h1
  obtain ⟨f, hf⟩ := getElem?_last_of_ne_nil ws hne
  unfold executeRedirInputAndOutputMode
  simp only [h1, hf, hp, isBuiltin_of_builtin p hb, if_true, List.map_cons, List.map_nil]

/-- What does hold of the built-in check: whenever the program word an executor
resolves (the first word of the argument vector it builds from the command) is
`cd`, `pwd`, `history` or `!`,
each of the five redirection executors writes
"<name>: I/O redirection not permitted for builtin commands" to `stderr` and
returns: no process is spawned and no file is opened; for every other word
`isBuiltin` returns false and writes nothing. -/
theorem builtin_redirection_rejected :
    (∀ (W : World) (executor : RedirExecutor) (ws argv : Words) (p : CString),
      executor.argv ws = some argv → argv.head? = some p →
      (p = "cd".toList ∨ p = "pwd".toList ∨ p = "history".toList ∨ p = "!".toList) →
      executor.run W ws =
        [Event.stderr
          (String.mk p ++ ": I/O redirection not permitted for builtin commands")]) ∧
    (∀ p : CString,
      ¬ (p = "cd".toList ∨ p = "pwd".toList ∨ p = "history".toList ∨ p = "!".toList) →
      isBuiltin p = (false, [])) := by
  refine ⟨?_, isBuiltin_of_not_builtin⟩
  intro W executor ws argv p hargv hp hb
  cases executor with
  | executeRedirInput =>
    simp only [RedirExecutor.argv, Option.map_eq_some'] at hargv
    obtain ⟨f, hf, rfl⟩ := hargv
    exact executeRedirInput_builtin W ws f p hf hp hb
  | executeRedirOutput =>
    simp only [RedirExecutor.argv, Option.some.injEq] at hargv
    subst hargv
    exact executeRedirOutputMode_builtin W "w" ws p hp hb
  | executeRedirAppend =>
    simp only [RedirExecutor.argv, Option.some.injEq] at hargv
    subst hargv
    exact executeRedirOutputMode_builtin W "a" ws p hp hb
  | executeRedirInputAndOutput =>
    simp only [RedirExecutor.argv, Option.map_eq_some'] at hargv
    obtain ⟨f, hf, rfl⟩ := hargv
    exact executeRedirInputAndOutputMode_builtin W "w" ws f p hf hp hb
  | executeRedirInputAndAppend =>
    simp only [RedirExecutor.argv, Option.map_eq_some'] at hargv
    obtain ⟨f, hf, rfl⟩ := hargv
    exact executeRedirInputAndOutputMode_builtin W "a" ws f p hf hp hb

/-- The commands `< in.txt cd`, `pwd > out.txt` and `< in history > > out` are
rejected by the built-in check. -/
theorem builtin_redirection_rejected_witness :
    executeRedirInput (echoWorld globNoMatch) [['<'], "in.txt".toList, "cd".toList]
      = [Event.stderr "cd: I/O redirection not permitted for builtin commands"] ∧
    executeRedirOutput (echoWorld globNoMatch) ["pwd".toList, ['>'], "out.txt".toList]
      = [Event.stderr "pwd: I/O redirection not permitted for builtin commands"] ∧
    executeRedirInputAndAppend (echoWorld globNoMatch)
        [['<'], "in".toList, "history".toList, ['>'], ['>'], "out".toList]
      = [Event.stderr "history: I/O redirection not permitted for builtin commands"] :=
  ⟨builtin_redirection_rejected.1 (echoWorld globNoMatch) RedirExecutor.executeRedirInput
      [['<'], "in.txt".toList, "cd".toList] _ "cd".toList rfl rfl (by decide),
    builtin_redirection_rejected.1 (echoWorld globNoMatch) RedirExecutor.executeRedirOutput
      ["pwd".toList, ['>'], "out.txt".toList] _ "pwd".toList rfl rfl (by decide),
    builtin_redirection_rejected.1 (echoWorld globNoMatch)
      RedirExecutor.executeRedirInputAndAppend
      [['<'], "in".toList, "history".toList, ['>'], ['>'], "out".toList] _
      "history".toList rfl rfl (by decide)⟩

/-! ## Pipelines: claims C14, C16 and C20, and empty stages -/

theorem pipeStage_of_stageRuns (W : World) (stage : Words) (input : List CString)
    (h : stageRuns W stage = true) :
    pipeStage W stage input =
      Except.ok ([Event.spawn (stagePath W stage) stage (some input)],
        stageOutput W stage input, stagePath W stage,
        (W.run (stagePath W stage) stage (some input)).2) := by
  unfold stageRuns at h
  simp only [pipeStage, h, if_true]
  rfl

theorem head?_ne_none (ws : Words) (h : ws ≠ []) : ¬ ws.head? = none := by
  cases ws with
  | nil => exact absurd rfl h
  | cons w ws => simp

theorem handlePipingStages_invalid_left (W : World) (s1 : Words) (rest : List Words)
    (inputArguments : Option (List CString))
    (andThen : List CString → CString → Nat → List Event) :
    handlePipingStages W (joinStages ([] :: s1 :: rest)) inputArguments andThen
      = [Event.stdout "invalid pipe"] := by
  have hl : leftPartition (joinStages ([] :: s1 :: rest)) ['|'] = [] :=
    leftPartition_joinStages [] _ (by simp)
  unfold handlePipingStages
  simp only [hl, List.head?_nil, true_or, if_true]

theorem handlePipingStages_invalid_right (W : World) (s0 : Words) (rest : List Words)
    (h0 : ['|'] ∉ s0) (inputArguments : Option (List CString))
    (andThen : List CString → CString → Nat → List Event) :
    handlePipingStages W (joinStages (s0 :: [] :: rest)) inputArguments andThen
      = [Event.stdout "invalid pipe"] := by
  have hr : leftPartition (rightPartition (joinStages (s0 :: [] :: rest)) ['|'] false) ['|']
      = [] := by
    rw [rightPartition_joinStages s0 [] rest h0]
    exact leftPartition_joinStages [] _ (by simp)
  unfold handlePipingStages
  simp only [hr, List.head?_nil, or_true, if_true]

theorem handlePiping_invalid_left (W : World) (s1 : Words) (rest : List Words)
    (inputArguments : Option (List CString)) (n redirectOption : Nat)
    (outputFilename : Option CString) :
    handlePiping W (joinStages ([] :: s1 :: rest)) inputArguments n redirectOption
      outputFilename = [Event.stdout "invalid pipe"] := by
  match n with
  | 0 => rw [handlePiping, handlePipingStages_invalid_left]
  | 1 => rw [handlePiping, handlePipingStages_invalid_left]
  | n + 2 => rw [handlePiping, handlePipingStages_invalid_left]

theorem handlePiping_invalid_right (W : World) (s0 : Words) (rest : List Words)
    (h0 : ['|'] ∉ s0)
    (inputArguments : Option (List CString)) (n redirectOption : Nat)
    (outputFilename : Option CString) :
    handlePiping W (joinStages (s0 :: [] :: rest)) inputArguments n redirectOption
      outputFilename = [Event.stdout "invalid pipe"] := by
  match n with
  | 0 => rw [handlePiping, handlePipingStages_invalid_right W s0 rest h0]
  | 1 => rw [handlePiping, handlePipingStages_invalid_right W s0 rest h0]
  | n + 2 => rw [handlePiping, handlePipingStages_invalid_right W s0 rest h0]

/-- The two stages of one call of `handlePiping` on a pipeline whose first two
stages run: both are spawned, the second fed the output of the first. -/
theorem handlePipingStages_run (W : World) (s0 s1 : Words) (rest : List Words)
    (h0 : ['|'] ∉ s0) (h1 : ['|'] ∉ s1) (hne0 : s0 ≠ []) (hne1 : s1 ≠ [])
    (hr0 : stageRuns W s0 = true) (hr1 : stageRuns W s1 = true)
    (inputArguments : Option (List CString))
    (andThen : List CString → CString → Nat → List Event) :
    handlePipingStages W (joinStages (s0 :: s1 :: rest)) inputArguments andThen =
      [Event.spawn (stagePath W s0) s0 (some (inputArguments.getD []))] ++
      [Event.spawn (stagePath W s1) s1
        (some (stageOutput W s0 (inputArguments.getD [])))] ++
      andThen (stageOutput W s1 (stageOutput W s0 (inputArguments.getD [])))
        (stagePath W s1)
        (W.run (stagePath W s1) s1
          (some (stageOutput W s0 (inputArguments.getD [])))).2 := by
  have hl : leftPartition (joinStages (s0 :: s1 :: rest)) ['|'] = s0 :=
    leftPartition_joinStages s0 _ h0
  have hc : rightPartition (joinStages (s0 :: s1 :: rest)) ['|'] false
      = joinStages (s1 :: rest) := rightPartition_joinStages s0 s1 rest h0
  have hr : leftPartition (joinStages (s1 :: rest)) ['|'] = s1 :=
    leftPartition_joinStages s1 _ h1
  unfold handlePipingStages
  simp only [hl, hc, hr, head?_ne_none s0 hne0, head?_ne_none s1 hne1, or_self, if_false,
    pipeStage_of_stageRuns W s0 _ hr0, pipeStage_of_stageRuns W s1 _ hr1]

/-- One call of `handlePiping` on a pipeline whose first two stages run: both
are spawned, and the recursive call starts again at the second stage, fed that
stage's output. -/
theorem handlePiping_step (W : World) (s0 s1 : Words) (rest : List Words)
    (h0 : ['|'] ∉ s0) (h1 : ['|'] ∉ s1) (hne0 : s0 ≠ []) (hne1 : s1 ≠ [])
    (hr0 : stageRuns W s0 = true) (hr1 : stageRuns W s1 = true)
    (inputArguments : Option (List CString)) (n redirectOption : Nat)
    (outputFilename : Option CString) :
    handlePiping W (joinStages (s0 :: s1 :: rest)) inputArguments (n + 2) redirectOption
      outputFilename =
      Event.spawn (stagePath W s0) s0 (some (inputArguments.getD [])) ::
      Event.spawn (stagePath W s1) s1
        (some (stageOutput W s0 (inputArguments.getD []))) ::
      handlePiping W (joinStages (s1 :: rest))
        (some (stageOutput W s1 (stageOutput W s0 (inputArguments.getD []))))
        (n + 1) redirectOption outputFilename := by
  rw [handlePiping, handlePipingStages_run W s0 s1 rest h0 h1 hne0 hne1 hr0 hr1,
    rightPartition_joinStages s0 s1 rest h0]
  rfl

/-- What does hold of empty stages, when `numberOfPipes` is the number of `|`
words of the sequence `handlePiping` is given: for every pipeline of at least
two stages in which stage `j` is the first empty one and every stage to its
left resolves to a program that can be executed, `handlePiping` prints
"invalid pipe" as the last thing it does:
nothing but the spawning of earlier stages comes before, and nothing at all
when the empty stage is the first or the second. -/
theorem handlePiping_empty_stage (W : World) :
    ∀ (j : Nat) (stages : List Words) (inputArguments : Option (List CString))
      (redirectOption : Nat) (outputFilename : Option CString),
      (∀ s ∈ stages, ['|'] ∉ s) → 2 ≤ stages.length → stages[j]? = some [] →
      (∀ i s, i < j → stages[i]? = some s → s ≠ [] ∧ stageRuns W s = true) →
      ∃ pre, handlePiping W (joinStages stages) inputArguments (stages.length - 1)
            redirectOption outputFilename = pre ++ [Event.stdout "invalid pipe"] ∧
        (∀ e ∈ pre, e.isSpawn = true) ∧ (j ≤ 1 → pre = []) := by
  intro j
  induction j with
  | zero =>
    intro stages ia ro ofn _ hlen hj _
    obtain ⟨s0, s1, rest, rfl⟩ : ∃ s0 s1 rest, stages = s0 :: s1 :: rest := by
      match stages, hlen with
      | s0 :: s1 :: rest, _ => exact ⟨s0, s1, rest, rfl⟩
    simp only [List.getElem?_cons_zero, Option.some.injEq] at hj
    subst hj
    exact ⟨[], handlePiping_invalid_left W s1 rest ia _ ro ofn, by simp, fun _ => rfl⟩
  | succ j ih =>
    intro stages ia ro ofn hp hlen hj hleft
    obtain ⟨s0, s1, rest, rfl⟩ : ∃ s0 s1 rest, stages = s0 :: s1 :: rest := by
      match stages, hlen with
      | s0 :: s1 :: rest, _ => exact ⟨s0, s1, rest, rfl⟩
    have hp0 : ['|'] ∉ s0 := hp s0 (by simp)
    have hp1 : ['|'] ∉ s1 := hp s1 (by simp)
    cases j with
    | zero =>
      simp only [Nat.zero_add, List.getElem?_cons_succ, List.getElem?_cons_zero,
        Option.some.injEq] at hj
      subst hj
      exact ⟨[], handlePiping_invalid_right W s0 rest hp0 ia _ ro ofn, by simp,
        fun _ => rfl⟩
    | succ j =>
      have hs0 := hleft 0 s0 (by omega) (by simp)
      have hs1 := hleft 1 s1 (by omega) (by simp)
      have hj' : (s1 :: rest)[j + 1]? = some [] := by
        simpa only [List.getElem?_cons_succ] using hj
      have hrest : 0 < rest.length := by
        cases rest with
        | nil => simp at hj'
        | cons a l => simp
      obtain ⟨m, hm⟩ : ∃ m, rest.length = m + 1 := ⟨rest.length - 1, by omega⟩
      have hn : (s0 :: s1 :: rest).length - 1 = m + 2 := by
        simp only [List.length_cons]; omega
      have hn' : (s1 :: rest).length - 1 = m + 1 := by
        simp only [List.length_cons]; omega
      obtain ⟨pre, hpre, hspawn, _⟩ := ih (s1 :: rest)
        (some (stageOutput W s1 (stageOutput W s0 (ia.getD [])))) ro ofn
        (fun s hs => hp s (List.mem_cons_of_mem _ hs))
        (by simp only [List.length_cons]; omega) hj'
        (fun i s hi hs => hleft (i + 1) s (by omega)
          (by simpa only [List.getElem?_cons_succ] using hs))
      rw [hn'] at hpre
      refine ⟨Event.spawn (stagePath W s0) s0 (some (ia.getD [])) ::
        Event.spawn (stagePath W s1) s1 (some (stageOutput W s0 (ia.getD []))) :: pre,
        ?_, ?_, fun h => by omega⟩
      · rw [hn, handlePiping_step W s0 s1 rest hp0 hp1 hs0.1 hs1.1 hs0.2 hs1.2, hpre]
        rfl
      · intro e he
        simp only [List.mem_cons] at he
        rcases he with rfl | rfl | he
        · rfl
        · rfl
        · exact hspawn e he

/-- On `cmd1 | | cmd2` "invalid pipe" is printed and nothing else is done. -/
theorem handlePiping_empty_stage_witness :
    joinStages [["cmd1".toList], [], ["cmd2".toList]]
      = ["cmd1".toList, ['|'], ['|'], "cmd2".toList] ∧
    ∃ pre, handlePiping (echoWorld globNoMatch)
        (joinStages [["cmd1".toList], [], ["cmd2".toList]]) none
        ([["cmd1".toList], [], ["cmd2".toList]].length - 1) 0 none
          = pre ++ [Event.stdout "invalid pipe"] ∧
      (∀ e ∈ pre, e.isSpawn = true) ∧ (1 ≤ 1 → pre = []) :=
  ⟨by decide,
    handlePiping_empty_stage (echoWorld globNoMatch) 1
      [["cmd1".toList], [], ["cmd2".toList]] none 0 none (by decide) (by decide)
      (by decide)
      (fun i s hi hs => by
        have hi0 : i = 0 := by omega
        subst hi0
        simp only [List.getElem?_cons_zero, Option.some.injEq] at hs
        subst hs
        exact ⟨by decide, by decide⟩)⟩

/-- C14 fails on the code: in a system where every program copies its input and
adds its own name as a line, `a | b | c` run on no input emits the lines `a`,
`b`, `b`, `c` and not `a`, `b`, `c`: `b` is spawned twice, the second time on
its own output, because the recursive call is handed the words after the first
`|`, which start with the stage that was just run as the right process. -/
theorem handlePiping_runs_middle_stage_twice :
    executePiping (echoWorld globNoMatch) 10 [['a'], ['|'], ['b'], ['|'], ['c']]
      = [Event.spawn "/bin/a".toList [['a']] (some []),
         Event.spawn "/bin/b".toList [['b']] (some [['a']]),
         Event.spawn "/bin/b".toList [['b']] (some [['a'], ['b']]),
         Event.spawn "/bin/c".toList [['c']] (some [['a'], ['b'], ['b']]),
         Event.stdout "a", Event.stdout "b", Event.stdout "b", Event.stdout "c",
         Event.stdout "/bin/c exit status = 0"] := by
  decide!

/-- C16 fails on the code: in a directory holding the files `a` and `b`, the
command `ls * | wc > out` expands to `ls a b | wc > out`, which is classified
`REDIR_OUTPUT`, and the output file name handed to `handlePiping` is `>`, the
word at index 5, and not the last word `out`: `argc` is counted before the
wildcards are expanded. -/
theorem executePiping_stale_argc :
    expandWildcards globTwoFiles 10
        ["ls".toList, ['*'], ['|'], "wc".toList, ['>'], "out".toList]
      = some ["ls".toList, ['a'], ['b'], ['|'], "wc".toList, ['>'], "out".toList] ∧
    getRedirectionType ["ls".toList, ['a'], ['b'], ['|'], "wc".toList, ['>'], "out".toList]
      = (REDIR_OUTPUT, []) ∧
    executePipingCall (echoWorld globTwoFiles) 10
        ["ls".toList, ['*'], ['|'], "wc".toList, ['>'], "out".toList]
      = ([], some ⟨["ls".toList, ['a'], ['b'], ['|'], "wc".toList], none, 1,
          REDIR_OUTPUT, some ['>']⟩) := by
  refine ⟨by decide!, by decide!, by decide!⟩

/-- C20 fails on the code: in every system, `executePiping` on `ls | wc > a b`
writes "invalid input redirection" twice, once in `checkRedirValidity` and once
more itself; and `executeRedirection` on `< f` writes nothing, since
`getRedirectionType` returns `NOT_REDIR` for two words before it checks
anything. -/
theorem invalid_redirection_line_count (W : World) (k : Nat) :
    executePiping W (k + 7) ["ls".toList, ['|'], "wc".toList, ['>'], ['a'], ['b']]
      = [Event.stderr "invalid input redirection",
         Event.stderr "invalid input redirection"] ∧
    executeRedirection W (k + 3) [['<'], ['f']] = [] := by
  constructor
  · have he := expandWildcards_no_wildcard W.glob
      ["ls".toList, ['|'], "wc".toList, ['>'], ['a'], ['b']] (k + 7) (by decide)
      (by simp only [List.length_cons, List.length_nil]; omega)
    have hc := executePipingCall_of_none W (k + 7) _ _ he (by decide) (by decide)
    rw [executePiping, hc]
    rfl
  · have he := expandWildcards_no_wildcard W.glob [['<'], ['f']] (k + 3) (by decide)
      (by simp only [List.length_cons, List.length_nil]; omega)
    obtain ⟨h2, h1⟩ := executeRedirectionCall_of_none W (k + 3) [['<'], ['f']] (by decide)
    rw [executeRedirection, h2, h1, he]
    rfl

/-! ## Slices of a word array: claim C25 -/

theorem separatorSearch_last (sep : CString) (post : Words) (h : sep ∉ post) :
    ∀ (pre : Words) (i : Nat) (found : Option Nat),
      separatorSearch sep true (pre ++ sep :: post) i found = some (i + pre.length) := by
  intro pre
  induction pre with
  | nil =>
    intro i found
    rw [List.nil_append, separatorSearch, if_pos rfl, if_neg (by decide),
      separatorSearch_not_mem sep true post _ _ h]
    rfl
  | cons w pre ih =>
    intro i found
    rw [List.cons_append, separatorSearch]
    by_cases hw : w = sep
    · rw [if_pos hw, if_neg (by decide), ih, List.length_cons]
      congr 1; omega
    · rw [if_neg hw, ih, List.length_cons]
      congr 1; omega

theorem rightPartition_last (pre post : Words) (sep : CString) (h : sep ∉ post) :
    rightPartition (pre ++ sep :: post) sep true = post := by
  rw [rightPartition, separatorSearch_last sep post h pre 0 none]
  simp

/-- A word that occurs in a sequence has a last occurrence. -/
theorem eq_append_cons_of_mem_last (ws : Words) (s : CString) (h : s ∈ ws) :
    ∃ pre post, ws = pre ++ s :: post ∧ s ∉ post := by
  induction ws with
  | nil => simp at h
  | cons w ws ih =>
    by_cases hs : s ∈ ws
    · obtain ⟨pre, post, rfl, hpost⟩ := ih hs
      exact ⟨w :: pre, post, rfl, hpost⟩
    · rcases List.mem_cons.mp h with rfl | h'
      · exact ⟨[], ws, rfl, hs⟩
      · exact absurd h' hs

/-- C25: when the separator word `s` occurs in `ws`, `leftPartition(ws, s)` is
the part of `ws` before the first occurrence of `s` and
`rightPartition(ws, s, false)` the part after it, so that the two with `s`
between them are `ws`, and `rightPartition(ws, s, true)` is the part after the
last occurrence of `s` and holds no `s`; when `s` does not occur in `ws` both
functions return `ws`; and on `hello < world` with separator `<` they return
`hello` and `world`. -/
theorem partition_spec (ws : Words) (s : CString) :
    (s ∈ ws →
      (∃ pre post, ws = pre ++ s :: post ∧ s ∉ pre ∧
        leftPartition ws s = pre ∧ rightPartition ws s false = post) ∧
      leftPartition ws s ++ [s] ++ rightPartition ws s false = ws ∧
      (∃ pre post, ws = pre ++ s :: post ∧ s ∉ post ∧
        rightPartition ws s true = post) ∧
      s ∉ rightPartition ws s true) ∧
    (s ∉ ws → leftPartition ws s = ws ∧ ∀ b, rightPartition ws s b = ws) ∧
    leftPartition ["hello".toList, ['<'], "world".toList] ['<'] = ["hello".toList] ∧
    rightPartition ["hello".toList, ['<'], "world".toList] ['<'] false
      = ["world".toList] ∧
    rightPartition ["hello".toList, ['<'], "world".toList] ['<'] true
      = ["world".toList] := by
  refine ⟨fun h => ?_, fun h => ⟨leftPartition_not_mem ws s h,
    fun b => rightPartition_not_mem ws s b h⟩, by decide, by decide, by decide⟩
  obtain ⟨pre, post, hws, hpre⟩ := List.eq_append_cons_of_mem h
  obtain ⟨pre', post', hws', hpost'⟩ := eq_append_cons_of_mem_last ws s h
  have hl : leftPartition ws s = pre := by rw [hws]; exact leftPartition_first pre post s hpre
  have hr : rightPartition ws s false = post := by
    rw [hws]; exact rightPartition_first pre post s hpre
  have hlast : rightPartition ws s true = post' := by
    rw [hws']; exact rightPartition_last pre' post' s hpost'
  refine ⟨⟨pre, post, hws, hpre, hl, hr⟩, ?_, ⟨pre', post', hws', hpost', hlast⟩, ?_⟩
  · rw [hl, hr, hws]; simp
  · rw [hlast]; exact hpost'

/-- C25 at `a < b < c` with separator `<`. -/
theorem partition_spec_witness :
    leftPartition [['a'], ['<'], ['b'], ['<'], ['c']] ['<'] ++ [['<']] ++
        rightPartition [['a'], ['<'], ['b'], ['<'], ['c']] ['<'] false
      = [['a'], ['<'], ['b'], ['<'], ['c']] ∧
    ['<'] ∉ rightPartition [['a'], ['<'], ['b'], ['<'], ['c']] ['<'] true ∧
    leftPartition [['a'], ['b']] ['<'] = [['a'], ['b']] :=
  ⟨((partition_spec [['a'], ['<'], ['b'], ['<'], ['c']] ['<']).1 (by decide)).2.1,
    ((partition_spec [['a'], ['<'], ['b'], ['<'], ['c']] ['<']).1 (by decide)).2.2.2,
    ((partition_spec [['a'], ['b']] ['<']).2.1 (by decide)).1⟩

/-! ## The argument vectors of the executors: claims C21 to C23 -/

/-- When the file name does not occur again after index 1, the argument vector
of `executeRedirInput` is the words from index 2 on. -/
theorem executeRedirInput_argv_of_no_recurrence (first fileName : CString) (rest : Words)
    (h : fileName ∉ rest) :
    RedirExecutor.argv RedirExecutor.executeRedirInput (first :: fileName :: rest)
      = some rest := by
  have := rightPartition_last [first] rest fileName h
  simp only [RedirExecutor.argv, List.getElem?_cons_succ, List.getElem?_cons_zero,
    Option.map_some', Option.some.injEq]
  exact this

/-- For a sequence classified OutputWrite the argument vector of
`executeRedirOutput` is all but the last two words, and it is not empty. -/
theorem executeRedirOutput_argv_of_output (ws : Words)
    (h : (getRedirectionType ws).1 = REDIR_OUTPUT) :
    leftPartition ws ['>'] = ws.take (ws.length - 2) ∧ leftPartition ws ['>'] ≠ [] := by
  rw [show REDIR_OUTPUT = 1 from rfl, getRedirectionType_fst_eq_iff ws 1 (by decide),
    detectedFlags_eq_output, checkRedirValidity_output, redirectionInRange_false_iff,
    getD_eq_iff ws (ws.length - 2) ['>'] (by simp)] at h
  obtain ⟨h3, ⟨_, _, hC⟩, _, hs⟩ := h
  have hlt : ws.length - 2 < ws.length := by omega
  have hget : ws[ws.length - 2] = ['>'] := by
    rw [List.getElem?_eq_getElem hlt, Option.some.injEq] at hC
    exact hC
  have hsplit : ws = ws.take (ws.length - 2) ++ ['>'] :: ws.drop (ws.length - 2 + 1) := by
    rw [← hget, ← List.drop_eq_getElem_cons hlt, List.take_append_drop]
  have hnot : ['>'] ∉ ws.take (ws.length - 2) := by
    intro hmem
    obtain ⟨i, hi, hiw⟩ := List.getElem_of_mem hmem
    rw [List.length_take] at hi
    rw [List.getElem_take] at hiw
    have hi' : i < ws.length := by omega
    exact (hs i ['>'] (Nat.zero_le _) (by omega)
      (by rw [List.getElem?_eq_getElem hi', hiw])).2 rfl
  have hleft : leftPartition ws ['>'] = ws.take (ws.length - 2) := by
    conv_lhs => rw [hsplit]
    exact leftPartition_first _ _ _ hnot
  refine ⟨hleft, ?_⟩
  rw [hleft]
  intro he
  have := congrArg List.length he
  rw [List.length_take, List.length_nil] at this
  omega

/-- C21 fails on the code: `< f cat f` is classified `REDIR_INPUT`, but the
argument vector `executeRedirInput` builds is empty and not `cat f`, the words
from index 2 on, and its program name is NULL, which `getPathToProgram`
dereferences; `< f grep f x` gives the vector `x`.  The vector is cut after the
last word equal to the file name, not after index 1. -/
theorem executeRedirInput_file_name_recurs (W : World) :
    getRedirectionType [['<'], ['f'], "cat".toList, ['f']] = (REDIR_INPUT, []) ∧
    [['<'], ['f'], "cat".toList, ['f']].drop 2 = ["cat".toList, ['f']] ∧
    RedirExecutor.argv RedirExecutor.executeRedirInput [['<'], ['f'], "cat".toList, ['f']]
      = some [] ∧
    executeRedirInput W [['<'], ['f'], "cat".toList, ['f']] = [Event.crash] ∧
    getRedirectionType [['<'], ['f'], "grep".toList, ['f'], ['x']] = (REDIR_INPUT, []) ∧
    RedirExecutor.argv RedirExecutor.executeRedirInput
      [['<'], ['f'], "grep".toList, ['f'], ['x']] = some [['x']] :=
  ⟨by decide, by decide, by decide, rfl, by decide, by decide⟩

/-- C22 fails on the code: `< f sort > f` is classified
`REDIR_INPUT | REDIR_OUTPUT` and `< f sort > > f` is classified
`REDIR_INPUT | REDIR_APPEND`, but the argument vector the executor builds is
empty and not `sort`, and its program name is NULL, which `getPathToProgram`
dereferences.  The words are cut after the last word equal to the input file
name, here the output file name. -/
theorem executeRedirInputAndOutput_file_name_recurs (W : World) :
    getRedirectionType [['<'], ['f'], "sort".toList, ['>'], ['f']]
      = (REDIR_INPUT ||| REDIR_OUTPUT, []) ∧
    RedirExecutor.argv RedirExecutor.executeRedirInputAndOutput
      [['<'], ['f'], "sort".toList, ['>'], ['f']] = some [] ∧
    executeRedirInputAndOutput W [['<'], ['f'], "sort".toList, ['>'], ['f']]
      = [Event.crash] ∧
    getRedirectionType [['<'], ['f'], "sort".toList, ['>'], ['>'], ['f']]
      = (REDIR_INPUT ||| REDIR_APPEND, []) ∧
    RedirExecutor.argv RedirExecutor.executeRedirInputAndAppend
      [['<'], ['f'], "sort".toList, ['>'], ['>'], ['f']] = some [] ∧
    executeRedirInputAndAppend W [['<'], ['f'], "sort".toList, ['>'], ['>'], ['f']]
      = [Event.crash] :=
  ⟨by decide, by decide, rfl, by decide, by decide, rfl⟩

/-- C23 fails on the code: the line `>>f` tokenizes to `> > f`, which is
classified `REDIR_APPEND` with nothing reported, but the argument vector
`executeRedirAppend` builds is empty: there is no program word, and the NULL
program name is dereferenced by `getPathToProgram`.  The append case of
`checkRedirValidity` asks for no program before the operators. -/
theorem executeRedirAppend_no_program (W : World) :
    tokenize ">>f".toList WORD_SEPARATORS SPECIAL_CHARS = some [['>'], ['>'], ['f']] ∧
    getRedirectionType [['>'], ['>'], ['f']] = (REDIR_APPEND, []) ∧
    RedirExecutor.argv RedirExecutor.executeRedirAppend [['>'], ['>'], ['f']] = some [] ∧
    executeRedirAppend W [['>'], ['>'], ['f']] = [Event.crash] :=
  ⟨by decide, by decide, by decide, rfl⟩

/-! ## Lemmas on tokenizing words joined by spaces -/

/-- The tokenizer with the shell's separators and operators returns the
specification side. -/
theorem tokenize_shell (line : CString) :
    tokenize line WORD_SEPARATORS SPECIAL_CHARS = some (tokenizeSpec line) := by
  obtain ⟨ws, hws, hR⟩ := tokenizeLoop_ind WORD_SEPARATORS SPECIAL_CHARS
    (fun s ws => ws = tokenizeSpec s)
    (fun s hs => by
      show [] = tokenizeSpec s
      rw [← tokenizeSpec_drop_strspn s, hs, tokenizeSpec_nil])
    (fun s c t ws hd hws => by
      have hc : c ∉ WORD_SEPARATORS := drop_strspn_head s WORD_SEPARATORS c t hd
      have hws : ws = tokenizeSpec _ := hws
      show _ :: ws = tokenizeSpec s
      rw [← tokenizeSpec_drop_strspn s, hd, tokenizeSpec_step c t hc, ← hws])
    (line.length + 1) line [] (Nat.lt_succ_self _)
  rw [tokenize, hws, hR, List.nil_append]

/-- Every word the tokenizer returns is one operator character or a plain
word. -/
theorem tokenize_isTokenWord (line : CString) (ws : Words)
    (h : tokenize line WORD_SEPARATORS SPECIAL_CHARS = some ws) :
    ∀ w ∈ ws, IsTokenWord w := by
  obtain ⟨ws', hws, hR⟩ := tokenizeLoop_ind WORD_SEPARATORS SPECIAL_CHARS
    (fun _ ws => ∀ w ∈ ws, IsTokenWord w)
    (fun s _ w hw => by simp at hw)
    (fun s c t ws hd hws w hw => by
      have hc : c ∉ WORD_SEPARATORS := drop_strspn_head s WORD_SEPARATORS c t hd
      rcases List.mem_cons.mp hw with rfl | hw
      · by_cases hs : c ∈ SPECIAL_CHARS
        · left
          exact ⟨c, hs, by rw [tokenLength_special _ _ c t hc hs]; simp⟩
        · right
          have hpos := tokenLength_pos WORD_SEPARATORS SPECIAL_CHARS c t hc
          have hlen := tokenLength_ordinary WORD_SEPARATORS SPECIAL_CHARS c t hs
          refine ⟨?_, fun d hd' => ⟨?_, ?_⟩⟩
          · generalize tokenLength WORD_SEPARATORS SPECIAL_CHARS (c :: t) = n at hpos
            cases n with
            | zero => omega
            | succ n => simp
          · exact take_strcspn_not_mem _ _ _ (tokenLength_le_seps _ _ _) d hd'
          · exact take_strcspn_not_mem _ _ _ (by rw [hlen]; exact Nat.min_le_right _ _) d hd'
      · exact hws w hw)
    (line.length + 1) line [] (Nat.lt_succ_self _)
  rw [tokenize, hws, List.nil_append, Option.some.injEq] at h
  subst h
  exact hR

/-- A token word in front of the end of the line, of a separator or of an
operator is the first word of the tokenization. -/
theorem tokenizeSpec_word (w rest : CString) (hw : IsTokenWord w)
    (hrest : rest = [] ∨
      ∃ c t, rest = c :: t ∧ (c ∈ WORD_SEPARATORS ∨ c ∈ SPECIAL_CHARS)) :
    tokenizeSpec (w ++ rest) = w :: tokenizeSpec rest := by
  rcases hw with ⟨c, hc, rfl⟩ | ⟨hne, hall⟩
  · exact tokenizeSpec_special c rest hc
  · exact tokenizeSpec_run w rest hne hall hrest

theorem joinWords_cons_cons (w v : CString) (l : Words) :
    joinWords (w :: v :: l) = w ++ ' ' :: joinWords (v :: l) := by
  simp [joinWords]

/-- Words joined by spaces tokenize to themselves, in front of the end of the
line, of a separator or of an operator. -/
theorem tokenizeSpec_joinWords (rest : CString)
    (hrest : rest = [] ∨
      ∃ c t, rest = c :: t ∧ (c ∈ WORD_SEPARATORS ∨ c ∈ SPECIAL_CHARS)) :
    ∀ (w : CString) (l : Words), (∀ v ∈ w :: l, IsTokenWord v) →
      tokenizeSpec (joinWords (w :: l) ++ rest) = (w :: l) ++ tokenizeSpec rest := by
  intro w l
  induction l generalizing w with
  | nil =>
    intro h
    have : joinWords [w] = w := by simp [joinWords]
    rw [this, tokenizeSpec_word w rest (h w (List.mem_cons_self _ _)) hrest]
    rfl
  | cons v l ih =>
    intro h
    rw [joinWords_cons_cons, List.append_assoc, List.cons_append,
      tokenizeSpec_word w _ (h w (List.mem_cons_self _ _))
        (Or.inr ⟨' ', _, rfl, Or.inl space_sep⟩),
      tokenizeSpec_sep ' ' _ space_sep,
      ih v (fun u hu => h u (List.mem_cons_of_mem _ hu))]
    rfl

theorem foldl_join (rest : Words) :
    ∀ acc : CString,
      rest.foldl (fun result word => result ++ [' '] ++ word) acc
        = acc ++ rest.flatMap (fun word => ' ' :: word) := by
  induction rest with
  | nil => intro acc; simp
  | cons w rest ih => intro acc; rw [List.foldl_cons, ih]; simp

theorem formString_eq (w : CString) (l : Words) :
    formString (w :: l) = some (joinWords (w :: l) ++ ['\n']) := by
  simp only [formString, foldl_join, joinWords]

theorem joinWords_eq_intercalate (ws : Words) :
    joinWords ws = List.intercalate [' '] ws := by
  match ws with
  | [] => rfl
  | [w] => simp [joinWords, List.intercalate]
  | w :: v :: l =>
    have ih := joinWords_eq_intercalate (v :: l)
    rw [joinWords_cons_cons, ih]
    simp [List.intercalate]

/-! ## The history text: claim C26 -/

/-- C26: for every input line whose tokenization `ws` is non-empty,
`formString(ws)` is the words joined by single spaces followed by a newline,
and tokenizing that text with the shell's separators and operators gives `ws`
again. -/
theorem history_replay (line : CString) (ws : Words)
    (h : tokenize line WORD_SEPARATORS SPECIAL_CHARS = some ws) (hne : ws ≠ []) :
    ∃ text, formString ws = some text ∧
      text = List.intercalate [' '] ws ++ ['\n'] ∧
      tokenize text WORD_SEPARATORS SPECIAL_CHARS = some ws := by
  have htok := tokenize_isTokenWord line ws h
  match ws, hne with
  | w :: l, _ =>
    refine ⟨_, formString_eq w l, by rw [joinWords_eq_intercalate], ?_⟩
    rw [tokenize_shell,
      tokenizeSpec_joinWords ['\n'] (Or.inr ⟨'\n', [], rfl, Or.inl (by decide)⟩) w l htok,
      tokenizeSpec_sep '\n' [] (by decide), tokenizeSpec_nil, List.append_nil]

/-- C26 at the line `ls -l<file`, which is written as `ls -l < file`. -/
theorem history_replay_witness :
    tokenize "ls -l<file".toList WORD_SEPARATORS SPECIAL_CHARS
      = some ["ls".toList, "-l".toList, ['<'], "file".toList] ∧
    ∃ text, formString ["ls".toList, "-l".toList, ['<'], "file".toList] = some text ∧
      text = List.intercalate [' '] ["ls".toList, "-l".toList, ['<'], "file".toList]
        ++ ['\n'] ∧
      tokenize text WORD_SEPARATORS SPECIAL_CHARS
        = some ["ls".toList, "-l".toList, ['<'], "file".toList] :=
  ⟨by decide, history_replay "ls -l<file".toList _ (by decide) (by decide)⟩

/-! ## From the line to the redirection shape: claim C24 -/

/-- Every branch of `checkRedirValidity` either reports and fails or passes
silently. -/
theorem checkRedirValidity_cases (ws : Words) (k : Nat) :
    checkRedirValidity ws k = invalidRedirection ∨ checkRedirValidity ws k = (true, []) := by
  unfold checkRedirValidity
  generalize k &&& (REDIR_APPEND ||| REDIR_INPUT ||| REDIR_OUTPUT) = selector
  generalize (REDIR_INPUT ||| REDIR_OUTPUT) = inputOutput
  generalize (REDIR_INPUT ||| REDIR_APPEND) = inputAppend
  simp only []
  split_ifs <;> first | exact Or.inl rfl | exact Or.inr rfl

theorem checkRedirValidity_snd (ws : Words) (k : Nat)
    (h : (checkRedirValidity ws k).1 = true) : (checkRedirValidity ws k).2 = [] := by
  rcases checkRedirValidity_cases ws k with hc | hc
  · rw [hc] at h; simp [invalidRedirection] at h
  · rw [hc]

theorem getRedirectionType_eq_of_fst (ws : Words) (k : Nat) (hk : k ≠ 0)
    (h : (getRedirectionType ws).1 = k) : getRedirectionType ws = (k, []) := by
  obtain ⟨h3, hf, hv⟩ := (getRedirectionType_fst_eq_iff ws k hk).mp h
  have hlen : ¬ ws.length ≤ 2 := by omega
  rw [getRedirectionType_eq, if_neg hlen, hf, if_pos hv, checkRedirValidity_snd ws k hv]

theorem getElem?_append_add (pre suf : Words) (k : Nat) :
    (pre ++ suf)[pre.length + k]? = suf[k]? := by
  rw [List.getElem?_append_right (by omega)]
  congr 1; omega

theorem not_operator_of_isPlainWord (w : CString) (h : IsPlainWord w) :
    w ≠ ['<'] ∧ w ≠ ['>'] := by
  constructor
  · rintro rfl
    exact (h.2 '<' (by simp)).2 (by decide)
  · rintro rfl
    exact (h.2 '>' (by simp)).2 (by decide)

theorem isTokenWord_of_isPlainWord (w : CString) (h : IsPlainWord w) : IsTokenWord w :=
  Or.inr h

/-- Words none of which is an operator, then `> > f`: OutputAppend. -/
theorem getRedirectionType_of_append_shape (pre : Words) (f : CString) (hne : pre ≠ [])
    (hpre : ∀ w ∈ pre, w ≠ ['<'] ∧ w ≠ ['>']) (hf : f ≠ ['<'] ∧ f ≠ ['>']) :
    getRedirectionType (pre ++ [['>'], ['>'], f]) = (REDIR_APPEND, []) := by
  apply getRedirectionType_eq_of_fst _ 2 (by decide)
  have hn : (pre ++ [['>'], ['>'], f]).length = pre.length + 3 := by simp
  have hpos : 0 < pre.length := List.length_pos.mpr hne
  have e3 : pre.length + 3 - 3 = pre.length + 0 := by omega
  have e2 : pre.length + 3 - 2 = pre.length + 1 := by omega
  have e1 : pre.length + 3 - 1 = pre.length + 2 := by omega
  rw [getRedirectionType_fst_eq_iff _ 2 (by decide), detectedFlags_eq_append,
    checkRedirValidity_append, redirectionInRange_false_iff, isRedirection_getD_false_iff,
    getD_eq_iff _ _ ['>'] (by simp), getD_eq_iff _ _ ['>'] (by simp), hn, e3, e2, e1,
    getElem?_append_add, getElem?_append_add, getElem?_append_add]
  refine ⟨by omega, ⟨?_, rfl, rfl⟩, ?_, ?_⟩
  · apply getD_ne_of_scan _ _ _ (Or.inl rfl)
    intro w hw
    rw [List.getElem?_append_left hpos] at hw
    exact hpre w (List.getElem?_mem hw)
  · intro w hw
    simp only [List.getElem?_cons_succ, List.getElem?_cons_zero, Option.some.injEq] at hw
    subst hw; exact hf
  · intro i w _ hi hw
    rw [List.getElem?_append_left (by omega)] at hw
    exact hpre w (List.getElem?_mem hw)

/-- Words none of which is an operator, then `> f`: OutputWrite. -/
theorem getRedirectionType_of_output_shape (pre : Words) (f : CString) (hne : pre ≠ [])
    (hpre : ∀ w ∈ pre, w ≠ ['<'] ∧ w ≠ ['>']) (hf : f ≠ ['<'] ∧ f ≠ ['>']) :
    getRedirectionType (pre ++ [['>'], f]) = (REDIR_OUTPUT, []) := by
  apply getRedirectionType_eq_of_fst _ 1 (by decide)
  have hn : (pre ++ [['>'], f]).length = pre.length + 2 := by simp
  have hpos : 0 < pre.length := List.length_pos.mpr hne
  have e2 : pre.length + 2 - 2 = pre.length + 0 := by omega
  have e1 : pre.length + 2 - 1 = pre.length + 1 := by omega
  have hscan : ∀ i w, i < pre.length → (pre ++ [['>'], f])[i]? = some w →
      w ≠ ['<'] ∧ w ≠ ['>'] := by
    intro i w hi hw
    rw [List.getElem?_append_left hi] at hw
    exact hpre w (List.getElem?_mem hw)
  rw [getRedirectionType_fst_eq_iff _ 1 (by decide), detectedFlags_eq_output,
    checkRedirValidity_output, redirectionInRange_false_iff, isRedirection_getD_false_iff,
    getD_eq_iff _ _ ['>'] (by simp), hn, e2, e1,
    getElem?_append_add, getElem?_append_add]
  refine ⟨by omega, ⟨?_, ?_, rfl⟩, ?_, ?_⟩
  · exact getD_ne_of_scan _ _ _ (Or.inl rfl) (fun w hw => hscan 0 w hpos hw)
  · exact getD_ne_of_scan _ _ _ (Or.inr rfl)
      (fun w hw => hscan (pre.length + 2 - 3) w (by omega) hw)
  · intro w hw
    simp only [List.getElem?_cons_succ, List.getElem?_cons_zero, Option.some.injEq] at hw
    subst hw; exact hf
  · intro i w _ hi hw
    exact hscan i w (by omega) hw

/-- The word `<`, then at least two words none of which is an operator:
InputOnly. -/
theorem getRedirectionType_of_input_shape (f v : CString) (rest : Words)
    (h : ∀ w ∈ f :: v :: rest, w ≠ ['<'] ∧ w ≠ ['>']) :
    getRedirectionType (['<'] :: f :: v :: rest) = (REDIR_INPUT, []) := by
  apply getRedirectionType_eq_of_fst _ 4 (by decide)
  have hscan : ∀ i w, 1 ≤ i → (['<'] :: f :: v :: rest)[i]? = some w →
      w ≠ ['<'] ∧ w ≠ ['>'] := by
    intro i w hi hw
    obtain ⟨k, rfl⟩ : ∃ k, i = k + 1 := ⟨i - 1, by omega⟩
    rw [List.getElem?_cons_succ] at hw
    exact h w (List.getElem?_mem hw)
  rw [getRedirectionType_fst_eq_iff _ 4 (by decide), detectedFlags_eq_input,
    checkRedirValidity_input, redirectionInRange_false_iff]
  refine ⟨by simp, ⟨rfl, ?_⟩, fun i w hi _ hw => hscan i w hi hw⟩
  exact getD_ne_of_scan _ _ _ (Or.inr rfl)
    (fun w hw => hscan _ w (by simp only [List.length_cons]; omega) hw)

theorem tokenizeSpec_plain (f : CString) (hf : IsPlainWord f) : tokenizeSpec f = [f] := by
  have := tokenizeSpec_word f [] (isTokenWord_of_isPlainWord f hf) (Or.inl rfl)
  rwa [List.append_nil, tokenizeSpec_nil] at this

/-- C24: for all non-empty strings `p`, `a1..ak` and `f` without separator and
without operator character, the lines `p a1..ak>>f` and `p a1..ak > > f` both
tokenize to `p a1..ak > > f`, which is classified `REDIR_APPEND`; the line
`p a1..ak>f` tokenizes to `p a1..ak > f`, which is classified `REDIR_OUTPUT`;
and the line `<f p a1..ak` tokenizes to `< f p a1..ak`, which is classified
`REDIR_INPUT`.  Nothing is reported in any of the three. -/
theorem tokenize_then_classify (p f : CString) (args : Words)
    (hp : IsPlainWord p) (hf : IsPlainWord f) (hargs : ∀ a ∈ args, IsPlainWord a) :
    tokenize (List.intercalate [' '] (p :: args) ++ ['>', '>'] ++ f)
        WORD_SEPARATORS SPECIAL_CHARS = some (p :: args ++ [['>'], ['>'], f]) ∧
    tokenize (List.intercalate [' '] (p :: args) ++ [' ', '>', ' ', '>', ' '] ++ f)
        WORD_SEPARATORS SPECIAL_CHARS = some (p :: args ++ [['>'], ['>'], f]) ∧
    getRedirectionType (p :: args ++ [['>'], ['>'], f]) = (REDIR_APPEND, []) ∧
    tokenize (List.intercalate [' '] (p :: args) ++ ['>'] ++ f)
        WORD_SEPARATORS SPECIAL_CHARS = some (p :: args ++ [['>'], f]) ∧
    getRedirectionType (p :: args ++ [['>'], f]) = (REDIR_OUTPUT, []) ∧
    tokenize (['<'] ++ f ++ [' '] ++ List.intercalate [' '] (p :: args))
        WORD_SEPARATORS SPECIAL_CHARS = some (['<'] :: f :: p :: args) ∧
    getRedirectionType (['<'] :: f :: p :: args) = (REDIR_INPUT, []) := by
  have hall : ∀ v ∈ p :: args, IsPlainWord v := by
    intro v hv
    rcases List.mem_cons.mp hv with rfl | hv
    · exact hp
    · exact hargs v hv
  have htok : ∀ v ∈ p :: args, IsTokenWord v :=
    fun v hv => isTokenWord_of_isPlainWord v (hall v hv)
  have hop : ∀ v ∈ p :: args, v ≠ ['<'] ∧ v ≠ ['>'] :=
    fun v hv => not_operator_of_isPlainWord v (hall v hv)
  have hgt : '>' ∈ SPECIAL_CHARS := by decide
  have hlt : '<' ∈ SPECIAL_CHARS := by decide
  rw [← joinWords_eq_intercalate]
  refine ⟨?_, ?_, ?_, ?_, ?_, ?_, ?_⟩
  · have hline : joinWords (p :: args) ++ ['>', '>'] ++ f
        = joinWords (p :: args) ++ '>' :: '>' :: f := by simp
    rw [tokenize_shell, hline,
      tokenizeSpec_joinWords _ (Or.inr ⟨'>', _, rfl, Or.inr hgt⟩) p args htok,
      tokenizeSpec_special '>' _ hgt, tokenizeSpec_special '>' _ hgt,
      tokenizeSpec_plain f hf]
  · have hline : joinWords (p :: args) ++ [' ', '>', ' ', '>', ' '] ++ f
        = joinWords (p :: args) ++ ' ' :: '>' :: ' ' :: '>' :: ' ' :: f := by simp
    rw [tokenize_shell, hline,
      tokenizeSpec_joinWords _ (Or.inr ⟨' ', _, rfl, Or.inl space_sep⟩) p args htok,
      tokenizeSpec_sep ' ' _ space_sep, tokenizeSpec_special '>' _ hgt,
      tokenizeSpec_sep ' ' _ space_sep, tokenizeSpec_special '>' _ hgt,
      tokenizeSpec_sep ' ' _ space_sep, tokenizeSpec_plain f hf]
  · exact getRedirectionType_of_append_shape (p :: args) f (by simp) hop
      (not_operator_of_isPlainWord f hf)
  · have hline : joinWords (p :: args) ++ ['>'] ++ f
        = joinWords (p :: args) ++ '>' :: f := by simp
    rw [tokenize_shell, hline,
      tokenizeSpec_joinWords _ (Or.inr ⟨'>', _, rfl, Or.inr hgt⟩) p args htok,
      tokenizeSpec_special '>' _ hgt, tokenizeSpec_plain f hf]
  · exact getRedirectionType_of_output_shape (p :: args) f (by simp) hop
      (not_operator_of_isPlainWord f hf)
  · have hjoin : ['<'] ++ f ++ [' '] ++ joinWords (p :: args)
        = '<' :: (joinWords (f :: p :: args) ++ []) := by
      rw [joinWords_cons_cons]; simp
    rw [tokenize_shell, hjoin, tokenizeSpec_special '<' _ hlt,
      tokenizeSpec_joinWords [] (Or.inl rfl) f (p :: args)
        (fun v hv => by
          rcases List.mem_cons.mp hv with rfl | hv
          · exact isTokenWord_of_isPlainWord _ hf
          · exact htok v hv),
      tokenizeSpec_nil, List.append_nil]
  · exact getRedirectionType_of_input_shape f p args
      (fun v hv => by
        rcases List.mem_cons.mp hv with rfl | hv
        · exact not_operator_of_isPlainWord _ hf
        · exact hop v hv)

/-- C24 at `sort -r data>>out`, `sort -r data > > out`, `sort -r data>out` and
`<out sort -r data`. -/
theorem tokenize_then_classify_witness :
    tokenize "sort -r data>>out".toList WORD_SEPARATORS SPECIAL_CHARS
      = some ["sort".toList, "-r".toList, "data".toList, ['>'], ['>'], "out".toList] ∧
    tokenize "sort -r data > > out".toList WORD_SEPARATORS SPECIAL_CHARS
      = some ["sort".toList, "-r".toList, "data".toList, ['>'], ['>'], "out".toList] ∧
    getRedirectionType
        ["sort".toList, "-r".toList, "data".toList, ['>'], ['>'], "out".toList]
      = (REDIR_APPEND, []) ∧
    tokenize "sort -r data>out".toList WORD_SEPARATORS SPECIAL_CHARS
      = some ["sort".toList, "-r".toList, "data".toList, ['>'], "out".toList] ∧
    getRedirectionType ["sort".toList, "-r".toList, "data".toList, ['>'], "out".toList]
      = (REDIR_OUTPUT, []) ∧
    tokenize "<out sort -r data".toList WORD_SEPARATORS SPECIAL_CHARS
      = some [['<'], "out".toList, "sort".toList, "-r".toList, "data".toList] ∧
    getRedirectionType [['<'], "out".toList, "sort".toList, "-r".toList, "data".toList]
      = (REDIR_INPUT, []) :=
  tokenize_then_classify "sort".toList "out".toList ["-r".toList, "data".toList]
    ⟨by decide, by decide⟩ ⟨by decide, by decide⟩
    (fun a ha => by
      simp only [List.mem_cons, List.mem_singleton, List.not_mem_nil, or_false] at ha
      rcases ha with rfl | rfl <;> exact ⟨by decide, by decide⟩)

/-! ## History references: claim C27 -/

/-- C27 fails on the code: with a history of 2 lines, `ls` and `pwd`, the line
`!2` tokenizes to `! 2` and `getHistoryWords` reports nothing: it fetches the
last line, `pwd`, prints it and returns its words, although 2 is not below the
line count; only from 3 on is "invalid history reference" reported.  The test
is `lineNumber > lineCount` where the lines are numbered from 0.  On an empty
history file `! 0` passes the test too and the buffer printed was never
written. -/
theorem getHistoryWords_accepts_line_count :
    tokenize "!2\n".toList WORD_SEPARATORS SPECIAL_CHARS = some [['!'], ['2']] ∧
    getHistoryLineCount (some ["ls\n".toList, "pwd\n".toList]) = 2 ∧
    getHistoryWords (some ["ls\n".toList, "pwd\n".toList]) [['!'], ['2']]
      = (some ["pwd".toList], [Event.stdout "pwd\n"]) ∧
    getHistoryWords (some ["ls\n".toList, "pwd\n".toList]) [['!'], ['1']]
      = (some ["pwd".toList], [Event.stdout "pwd\n"]) ∧
    getHistoryWords (some ["ls\n".toList, "pwd\n".toList]) [['!'], ['3']]
      = (none, [Event.stderr "!: invalid history reference"]) ∧
    getHistoryWords (some []) [['!'], ['0']] = (none, [Event.crash]) := by
  decide

/-! ## Built-in programs and empty stages: claims C13 and C15 -/

/-- C13 fails on the code: `< cd cd` is classified `REDIR_INPUT` and its
program word, the word at index 2, is the built-in `cd`, but `executeRedirInput`
writes nothing to `stderr`: the argument vector is cut after the last word equal
to the file name `cd`, so it is empty and the NULL program name is dereferenced
by `getPathToProgram`, before `isBuiltin` is called.  For `< history history x`
the vector is `x`, so that `x` and not `history` is checked and resolved; and
`< cd cd > out` fails as `< cd cd` does. -/
theorem executeRedirInput_builtin_not_reported (W : World) :
    getRedirectionType [['<'], "cd".toList, "cd".toList] = (REDIR_INPUT, []) ∧
    [['<'], "cd".toList, "cd".toList][2]? = some "cd".toList ∧
    isBuiltin "cd".toList
      = (true, ["cd: I/O redirection not permitted for builtin commands"]) ∧
    executeRedirInput W [['<'], "cd".toList, "cd".toList] = [Event.crash] ∧
    getRedirectionType [['<'], "history".toList, "history".toList, ['x']]
      = (REDIR_INPUT, []) ∧
    RedirExecutor.argv RedirExecutor.executeRedirInput
      [['<'], "history".toList, "history".toList, ['x']] = some [['x']] ∧
    getRedirectionType [['<'], "cd".toList, "cd".toList, ['>'], "out".toList]
      = (REDIR_INPUT ||| REDIR_OUTPUT, []) ∧
    executeRedirInputAndOutput W [['<'], "cd".toList, "cd".toList, ['>'], "out".toList]
      = [Event.crash] :=
  ⟨by decide, by decide, by decide, rfl, by decide, by decide, by decide, rfl⟩

/-- C15 fails on the code: in a directory whose only one-letter file name is
`|`, the sequence `a ? b |`, whose second stage is empty, is expanded to
`a | b |`, whose third stage is empty, and `executePiping` hands it to
`handlePiping` with `numberOfPipes` 1, the number of `|` words counted before
the expansion: `a` and `b` are spawned and the output of `b` is printed, and
"invalid pipe" is never printed.  With the count 2 of the expanded sequence
`handlePiping` prints "invalid pipe" after the two programs. -/
theorem executePiping_empty_stage_not_reported :
    joinStages [[['a'], ['?'], ['b']], []] = [['a'], ['?'], ['b'], ['|']] ∧
    expandWildcards globPipeFile 10 [['a'], ['?'], ['b'], ['|']]
      = some [['a'], ['|'], ['b'], ['|']] ∧
    joinStages [[['a']], [['b']], []] = [['a'], ['|'], ['b'], ['|']] ∧
    executePipingCall (echoWorld globPipeFile) 10 [['a'], ['?'], ['b'], ['|']]
      = ([], some ⟨[['a'], ['|'], ['b'], ['|']], none, 1, 0, none⟩) ∧
    executePiping (echoWorld globPipeFile) 10 [['a'], ['?'], ['b'], ['|']]
      = [Event.spawn "/bin/a".toList [['a']] (some []),
         Event.spawn "/bin/b".toList [['b']] (some [['a']]),
         Event.stdout "a", Event.stdout "b",
         Event.stdout "/bin/b exit status = 0"] ∧
    handlePiping (echoWorld globPipeFile) [['a'], ['|'], ['b'], ['|']] none 2 0 none
      = [Event.spawn "/bin/a".toList [['a']] (some []),
         Event.spawn "/bin/b".toList [['b']] (some [['a']]),
         Event.stdout "invalid pipe"] :=
  ⟨by decide, by decide!, by decide, by decide!, by decide!, by decide!⟩

end Nautilus
